import Mathlib

/-!
StreamDeck-Visulizer: audio analysis utilities, server relay and client adapter.

A shallow embedding of `src/lib/audio_utils.js`, of the decoding and relay code of
`src/audioServer.js` and of the connection handling of `src/lib/audio_adapter.js`.

Numbers. A JavaScript Number is modelled by `JSNum α`: `NaN`, the two infinities, or a finite value
of an ordered field `α` (`ℚ` when the definitions are run, `ℝ` for the exact mathematical
functions). Finite arithmetic is exact: rounding and overflow of IEEE doubles are not
modelled, and `+0` and `-0` are identified (a finite non-zero quotient by zero takes the sign of
the numerator). The special values follow ECMAScript. `Math.sqrt`, `Math.log10`, `Math.log2`
and `Math.pow(10, ·)` are given by a `MathLib α` on the finite arguments where ECMAScript
does not fix the result, `Math.log` and `Math.pow(2, ·)` by a `MathLog α`; the tables
`doubleMath` and `doubleLog` hold their double-precision values at the arguments of the
closed evaluations.
-/

set_option linter.unusedSectionVars false

namespace StreamDeck

/-- A JavaScript Number. -/
inductive JSNum (α : Type) where
  | nan : JSNum α
  | negInf : JSNum α
  | posInf : JSNum α
  | fin (x : α) : JSNum α
  deriving DecidableEq, Repr

/-- The errors the embedded code can throw. -/
inductive JSError where
  /-- A `RangeError`: an invalid array length, or a buffer offset out of range. -/
  | rangeError : JSError
  deriving DecidableEq, Repr

/-- The functions of `Math` whose values on finite arguments the language leaves to the
implementation. -/
structure MathLib (α : Type) where
  /-- The function `Math.sqrt` on a finite positive argument. -/
  sqrt : α → α
  /-- The function `Math.log10` on a finite positive argument other than 1. -/
  log10 : α → α
  /-- The function `Math.log2` on a finite positive argument other than 1. -/
  log2 : α → α
  /-- The function `Math.pow(10, y)` on a finite exponent other than 0. -/
  pow10 : α → α
  /-- The text `Number.prototype.toString` gives for a finite value that is not an integer of
  magnitude below 10^21 (the integers it writes out digit by digit). -/
  showOther : α → String

namespace JSNum

variable {α : Type} [LinearOrderedField α] [FloorRing α]

/-- Unary minus. -/
def neg : JSNum α → JSNum α
  | nan => nan
  | negInf => posInf
  | posInf => negInf
  | fin x => fin (-x)

/-- The operator `+` on Numbers. -/
def add : JSNum α → JSNum α → JSNum α
  | nan, _ => nan
  | posInf, nan => nan
  | posInf, negInf => nan
  | posInf, posInf => posInf
  | posInf, fin _ => posInf
  | negInf, nan => nan
  | negInf, negInf => negInf
  | negInf, posInf => nan
  | negInf, fin _ => negInf
  | fin _, nan => nan
  | fin _, negInf => negInf
  | fin _, posInf => posInf
  | fin x, fin y => fin (x + y)

/-- The operator `-` on Numbers. -/
@[simp] def sub (a b : JSNum α) : JSNum α := add a (neg b)

/-- An infinity with the sign of `x`, `NaN` for `x = 0`: the product of `+Infinity` with
the finite `x`. -/
def infTimes (x : α) : JSNum α :=
  if x = 0 then nan else if 0 < x then posInf else negInf

/-- The operator `*` on Numbers. -/
def mul : JSNum α → JSNum α → JSNum α
  | nan, _ => nan
  | posInf, nan => nan
  | posInf, negInf => negInf
  | posInf, posInf => posInf
  | posInf, fin y => infTimes y
  | negInf, nan => nan
  | negInf, negInf => posInf
  | negInf, posInf => negInf
  | negInf, fin y => infTimes (-y)
  | fin _, nan => nan
  | fin x, negInf => infTimes (-x)
  | fin x, posInf => infTimes x
  | fin x, fin y => fin (x * y)

/-- The operator `/` on Numbers. -/
def div : JSNum α → JSNum α → JSNum α
  | nan, _ => nan
  | posInf, nan => nan
  | posInf, negInf => nan
  | posInf, posInf => nan
  | posInf, fin y => if 0 ≤ y then posInf else negInf
  | negInf, nan => nan
  | negInf, negInf => nan
  | negInf, posInf => nan
  | negInf, fin y => if 0 ≤ y then negInf else posInf
  | fin _, nan => nan
  | fin _, negInf => fin 0
  | fin _, posInf => fin 0
  | fin x, fin y => if y = 0 then infTimes x else fin (x / y)

/-- The integer part of `x`, rounding towards zero. -/
def trunc (x : α) : ℤ := if 0 ≤ x then ⌊x⌋ else ⌈x⌉

/-- The operator `%` on Numbers: the remainder has the sign of the dividend. -/
def mod : JSNum α → JSNum α → JSNum α
  | nan, _ => nan
  | posInf, _ => nan
  | negInf, _ => nan
  | fin _, nan => nan
  | fin x, negInf => fin x
  | fin x, posInf => fin x
  | fin x, fin y => if y = 0 then nan else fin (x - y * (trunc (x / y) : α))

instance : Neg (JSNum α) := ⟨neg⟩
instance : Add (JSNum α) := ⟨add⟩
instance : Sub (JSNum α) := ⟨sub⟩
instance : Mul (JSNum α) := ⟨mul⟩
instance : Div (JSNum α) := ⟨div⟩
instance : Mod (JSNum α) := ⟨mod⟩

/-- The relation `a < b` of JavaScript: false as soon as one side is `NaN`. -/
def lt : JSNum α → JSNum α → Bool
  | negInf, posInf => true
  | negInf, fin _ => true
  | fin _, posInf => true
  | fin x, fin y => decide (x < y)
  | nan, _ => false
  | posInf, _ => false
  | negInf, nan => false
  | negInf, negInf => false
  | fin _, nan => false
  | fin _, negInf => false

/-- The relation `a <= b` of JavaScript: false as soon as one side is `NaN`. -/
def le : JSNum α → JSNum α → Bool
  | negInf, negInf => true
  | negInf, posInf => true
  | negInf, fin _ => true
  | posInf, posInf => true
  | fin _, posInf => true
  | fin x, fin y => decide (x ≤ y)
  | nan, _ => false
  | negInf, nan => false
  | posInf, nan => false
  | posInf, negInf => false
  | posInf, fin _ => false
  | fin _, nan => false
  | fin _, negInf => false

/-- The relation `a > b` of JavaScript. -/
@[simp] def gt (a b : JSNum α) : Bool := lt b a

/-- The relation `a >= b` of JavaScript. -/
@[simp] def ge (a b : JSNum α) : Bool := le b a

/-- The relation `a === b` on Numbers: `NaN` is not equal to itself. -/
def strictEq : JSNum α → JSNum α → Bool
  | negInf, negInf => true
  | posInf, posInf => true
  | fin x, fin y => decide (x = y)
  | nan, _ => false
  | negInf, nan => false
  | negInf, posInf => false
  | negInf, fin _ => false
  | posInf, nan => false
  | posInf, negInf => false
  | posInf, fin _ => false
  | fin _, nan => false
  | fin _, negInf => false
  | fin _, posInf => false

/-- The conversion `ToBoolean` on Numbers: `NaN` and zero are falsy. -/
def truthy : JSNum α → Bool
  | nan => false
  | negInf => true
  | posInf => true
  | fin x => decide (x ≠ 0)

/-- The operator `a || b` on Numbers. -/
def or (a b : JSNum α) : JSNum α := if truthy a then a else b

/-- The function `Math.floor`. -/
def floor : JSNum α → JSNum α
  | nan => nan
  | negInf => negInf
  | posInf => posInf
  | fin x => fin ((⌊x⌋ : ℤ) : α)

/-- The function `Math.ceil`. -/
def ceil : JSNum α → JSNum α
  | nan => nan
  | negInf => negInf
  | posInf => posInf
  | fin x => fin ((⌈x⌉ : ℤ) : α)

/-- The function `Math.sqrt`. -/
def sqrt (M : MathLib α) : JSNum α → JSNum α
  | nan => nan
  | negInf => nan
  | posInf => posInf
  | fin x => if x < 0 then nan else if x = 0 then fin 0 else fin (M.sqrt x)

/-- The function `Math.log10`. -/
def log10 (M : MathLib α) : JSNum α → JSNum α
  | nan => nan
  | negInf => nan
  | posInf => posInf
  | fin x =>
    if x < 0 then nan else if x = 0 then negInf else if x = 1 then fin 0 else fin (M.log10 x)

/-- The function `Math.log2`. -/
def log2 (M : MathLib α) : JSNum α → JSNum α
  | nan => nan
  | negInf => nan
  | posInf => posInf
  | fin x =>
    if x < 0 then nan else if x = 0 then negInf else if x = 1 then fin 0 else fin (M.log2 x)

/-- The function `Math.pow(10, y)`. -/
def pow10 (M : MathLib α) : JSNum α → JSNum α
  | nan => nan
  | negInf => fin 0
  | posInf => posInf
  | fin y => if y = 0 then fin 1 else fin (M.pow10 y)

/-- The Number of a natural number, such as an array index or length. -/
@[simp] def ofNat (n : Nat) : JSNum α := fin (n : α)

/-- The conversion `Number.prototype.toString`. -/
def toStr (M : MathLib α) : JSNum α → String
  | nan => "NaN"
  | negInf => "-Infinity"
  | posInf => "Infinity"
  | fin x =>
    if ((⌊x⌋ : ℤ) : α) = x ∧ |x| < 10 ^ 21 then toString ⌊x⌋ else M.showOther x

end JSNum

open JSNum

variable {α : Type} [LinearOrderedField α] [FloorRing α]

/-! ## `src/lib/audio_utils.js` -/

/-- The expression `new Array(len)` for a Number `len`: an array of that length, which is all
the code uses of it before `fill(0)`; a `RangeError` unless `len` is an integer between
0 and 2^32 - 1. -/
def newArray : JSNum α → Except JSError Nat
  | nan => .error .rangeError
  | negInf => .error .rangeError
  | posInf => .error .rangeError
  | fin x =>
    if 0 ≤ x ∧ ((⌊x⌋ : ℤ) : α) = x ∧ x ≤ 4294967295 then .ok ⌊x⌋.toNat
    else .error .rangeError

/-- The function `BinsfrequencyRanges`: each range is the pair `[low, high]` the callback of
`map` builds for its index. -/
def BinsfrequencyRanges (M : MathLib α) (numBins minFreq maxFreq : JSNum α) :
    Except JSError (List (JSNum α × JSNum α)) := do
  let minLog := log10 M minFreq
  let maxLog := log10 M maxFreq
  let binSize := (maxLog - minLog) / numBins
  let length ← newArray numBins
  return (List.range length).map fun index =>
    (pow10 M (ofNat index * binSize + minLog),
     pow10 M ((ofNat index + fin 1) * binSize + minLog))

/-- The statement `binAmplitudes[index] += amplitude`, which the code runs only for an integer
`index` inside the array. -/
def addAt (binAmplitudes : List (JSNum α)) (index amplitude : JSNum α) : List (JSNum α) :=
  match index with
  | fin x => binAmplitudes.set ⌊x⌋.toNat (binAmplitudes.getD ⌊x⌋.toNat nan + amplitude)
  | _ => binAmplitudes

/-- One iteration of the loop of `Binsamplitudes`, for the point `frequencies[i]`,
`amplitudes[i]`. -/
def binStep (M : MathLib α) (minFreq maxFreq minLog binSize aggregationFactor
    adjustedNumBins : JSNum α) (binAmplitudes : List (JSNum α)) (frequency amplitude : JSNum α) :
    List (JSNum α) :=
  if lt frequency minFreq || gt frequency maxFreq then binAmplitudes
  else
    let binIndex := floor ((log10 M frequency - minLog) / binSize)
    let adjustedBinIndex := floor (binIndex / aggregationFactor)
    if ge adjustedBinIndex (fin 0) && lt adjustedBinIndex adjustedNumBins then
      addAt binAmplitudes adjustedBinIndex amplitude
    else binAmplitudes

/-- The loop of `Binsamplitudes` over `i < frequencies.length`: the second list is what is left
of `amplitudes` from index `i` on, and a missing `amplitudes[i]` is `undefined`, which the
addition turns into `NaN`. -/
def binLoop (M : MathLib α) (minFreq maxFreq minLog binSize aggregationFactor
    adjustedNumBins : JSNum α) :
    List (JSNum α) → List (JSNum α) → List (JSNum α) → List (JSNum α)
  | [], _, binAmplitudes => binAmplitudes
  | frequency :: frequencies, amplitudes, binAmplitudes =>
    binLoop M minFreq maxFreq minLog binSize aggregationFactor adjustedNumBins
      frequencies amplitudes.tail
      (binStep M minFreq maxFreq minLog binSize aggregationFactor adjustedNumBins
        binAmplitudes frequency (amplitudes.headD nan))

/-- The function `Binsamplitudes`, called with all six arguments (a caller that leaves
`aggregationFactor` out passes 1, one that passes `undefined` for `minFreq` passes 20). -/
def Binsamplitudes (M : MathLib α) (frequencies amplitudes : List (JSNum α))
    (numBins minFreq maxFreq aggregationFactor : JSNum α) : Except JSError (List (JSNum α)) := do
  let minLog := log10 M minFreq
  let maxLog := log10 M maxFreq
  let binSize := (maxLog - minLog) / numBins
  let adjustedNumBins := ceil (numBins / aggregationFactor)
  let length ← newArray adjustedNumBins
  return binLoop M minFreq maxFreq minLog binSize aggregationFactor adjustedNumBins
    frequencies amplitudes (List.replicate length (fin 0))

/-- The object `dominantFrequency` of `getAverageAndDominantFrequency`. -/
structure DominantFrequency (α : Type) where
  frequency : JSNum α
  amplitude : JSNum α
  deriving DecidableEq, Repr

/-- The variables of the loop of `getAverageAndDominantFrequency`. -/
structure AverageState (α : Type) where
  totalFrequency : JSNum α
  totalAmplitude : JSNum α
  dominantFrequency : DominantFrequency α
  deriving DecidableEq, Repr

/-- The result of `getAverageAndDominantFrequency`. -/
structure AverageAndDominant (α : Type) where
  averageFrequency : JSNum α
  dominantFrequency : DominantFrequency α
  deriving DecidableEq, Repr

/-- One iteration of the loop of `getAverageAndDominantFrequency`. -/
def averageStep (amplitudeThreshold : JSNum α) (st : AverageState α)
    (frequency amplitude : JSNum α) : AverageState α :=
  let dominantFrequency :=
    if gt amplitude st.dominantFrequency.amplitude then ⟨frequency, amplitude⟩
    else st.dominantFrequency
  if le amplitude amplitudeThreshold then
    ⟨st.totalFrequency, st.totalAmplitude, dominantFrequency⟩
  else
    ⟨st.totalFrequency + frequency * amplitude, st.totalAmplitude + amplitude,
      dominantFrequency⟩

/-- The loop of `getAverageAndDominantFrequency` over `i < frequencies.length`; a missing
`amplitudes[i]` is `undefined`, which compares and adds like `NaN`. -/
def averageLoop (amplitudeThreshold : JSNum α) :
    List (JSNum α) → List (JSNum α) → AverageState α → AverageState α
  | [], _, st => st
  | frequency :: frequencies, amplitudes, st =>
    averageLoop amplitudeThreshold frequencies amplitudes.tail
      (averageStep amplitudeThreshold st frequency (amplitudes.headD nan))

/-- The function `getAverageAndDominantFrequency`. -/
def getAverageAndDominantFrequency (frequencies amplitudes : List (JSNum α))
    (amplitudeThreshold : JSNum α) : AverageAndDominant α :=
  let st := averageLoop amplitudeThreshold frequencies amplitudes
    ⟨fin 0, fin 1, ⟨fin 0, fin 0⟩⟩
  ⟨st.totalFrequency / st.totalAmplitude, st.dominantFrequency⟩

/-- The table `noteNames` of `findClosestNote`. -/
def noteNames : List String :=
  ["C", "C#", "D", "D#", "E", "F", "F#", "G", "G#", "A", "A#", "B"]

/-- The lookup `noteNames[noteIndex]` as the string concatenation sees it: off the table, or at
an index that is not a natural number, the lookup is `undefined`. -/
def noteNameAt : JSNum α → String
  | nan => "undefined"
  | negInf => "undefined"
  | posInf => "undefined"
  | fin x =>
    if 0 ≤ x ∧ ((⌊x⌋ : ℤ) : α) = x then noteNames.getD ⌊x⌋.toNat "undefined" else "undefined"

/-- The function `findClosestNote`; the literal `0.5` is written `1 / 2`. -/
def findClosestNote (M : MathLib α) (frequency : JSNum α) : String :=
  if strictEq frequency (fin 0) then "A0"
  else
    let A4 : JSNum α := fin 440
    let semitonesFromA4 := floor (fin 12 * log2 M (frequency / A4) + fin (1 / 2))
    let noteIndex := (semitonesFromA4 + fin 9) % fin 12
    let octave := fin 4 + floor ((semitonesFromA4 + fin 9) / fin 12)
    let wrap := lt noteIndex (fin 0)
    let noteIndex := if wrap then noteIndex + fin 12 else noteIndex
    let octave := if wrap then octave - fin 1 else octave
    let noteName := noteNameAt noteIndex
    let octave := if lt octave (fin 4) then octave + fin 1 else octave
    noteName ++ toStr M octave

/-- The function `calculateDB`: the loop accumulates the squares in `rms`, which is then divided
by the length, rooted and converted; `db || -1000` is the returned value. -/
def calculateDB (M : MathLib α) (amplitudes : List (JSNum α)) : JSNum α :=
  let rms := amplitudes.foldl (fun rms a => rms + a * a) (fin 0)
  let rms := rms / ofNat amplitudes.length
  let rms := sqrt M rms
  let db := fin 20 * log10 M rms
  JSNum.or db (fin (-1000))

/-- The function `calculateMultiplier`. -/
def calculateMultiplier (M : MathLib α) (frameSize analyzerBins ajustment : JSNum α) : JSNum α :=
  let multiplier1 := fin 1024 / frameSize
  let multiplier2 := if strictEq analyzerBins (fin 0) then fin 0 else log2 M analyzerBins
  let finalMultiplier := multiplier1 * multiplier2
  finalMultiplier * ajustment

/-- The white space `parseInt` skips at the start of its text (`StrWhiteSpaceChar`), by code
point. -/
def isStrWhiteSpaceChar (c : Char) : Bool :=
  c.toNat = 9 || c.toNat = 10 || c.toNat = 11 || c.toNat = 12 || c.toNat = 13 ||
  c.toNat = 32 || c.toNat = 160 || c.toNat = 5760 || (8192 ≤ c.toNat && c.toNat ≤ 8202) ||
  c.toNat = 8232 || c.toNat = 8233 || c.toNat = 8239 || c.toNat = 8287 || c.toNat = 12288 ||
  c.toNat = 65279

/-- A decimal digit, by code point. -/
def isDecimalDigit (c : Char) : Bool := 48 ≤ c.toNat && c.toNat ≤ 57

/-- The call `parseInt(text, 10)` on the text `ToString` gives for its first argument: leading
white space and one sign are skipped, the digits that follow are read, and without a digit the
result is `NaN`. -/
def parseInt10 (text : String) : JSNum α :=
  let s := text.toList.dropWhile isStrWhiteSpaceChar
  let negative := s.head?.map Char.toNat == some 45
  let s := if s.head?.map Char.toNat == some 45 || s.head?.map Char.toNat == some 43
    then s.tail else s
  let digits := s.takeWhile isDecimalDigit
  let value : Nat := digits.foldl (fun v c => 10 * v + (c.toNat - 48)) 0
  if digits.isEmpty then nan
  else if negative then fin (-(value : α)) else fin (value : α)

/-- One iteration of the loop of `getBassAmplitude`, with the two bounds `parseInt` gives; the
literal `2.5` is written `5 / 2`. -/
def bassStep (low high bassAmplitude frequency amplitude : JSNum α) : JSNum α :=
  if ge frequency low && le frequency high then bassAmplitude + amplitude * fin (5 / 2)
  else bassAmplitude

/-- The loop of `getBassAmplitude` over `i < frequencies.length`; a missing `amplitudes[i]` is
`undefined`, which multiplies like `NaN`. -/
def bassLoop (low high : JSNum α) : List (JSNum α) → List (JSNum α) → JSNum α → JSNum α
  | [], _, bassAmplitude => bassAmplitude
  | frequency :: frequencies, amplitudes, bassAmplitude =>
    bassLoop low high frequencies amplitudes.tail
      (bassStep low high bassAmplitude frequency (amplitudes.headD nan))

/-- The function `getBassAmplitude`. The array `bassFrequencyRange` is given by the texts
`ToString` yields for its elements; an element that is missing is `undefined`. -/
def getBassAmplitude (frequencies amplitudes : List (JSNum α))
    (bassFrequencyRange : List String) : JSNum α :=
  bassLoop (parseInt10 (bassFrequencyRange.getD 0 "undefined"))
    (parseInt10 (bassFrequencyRange.getD 1 "undefined")) frequencies amplitudes (fin 0)

/-- The functions `Math.log` and `Math.pow(2, ·)` on the finite arguments where the language
leaves their values to the implementation. -/
structure MathLog (α : Type) where
  /-- The function `Math.log` on a finite positive argument other than 1. -/
  log : α → α
  /-- The function `Math.pow(2, y)` on a finite exponent other than 0. -/
  pow2 : α → α

/-- The function `Math.log`. -/
def JSNum.log (L : MathLog α) : JSNum α → JSNum α
  | nan => nan
  | negInf => nan
  | posInf => posInf
  | fin x =>
    if x < 0 then nan else if x = 0 then negInf else if x = 1 then fin 0 else fin (L.log x)

/-- The function `Math.pow(2, y)`. -/
def JSNum.pow2 (L : MathLog α) : JSNum α → JSNum α
  | nan => nan
  | negInf => fin 0
  | posInf => posInf
  | fin y => if y = 0 then fin 1 else fin (L.pow2 y)

/-- The function `calculateFrameSize`. -/
def calculateFrameSize (L : MathLog α) (sampleRate fps : JSNum α) : JSNum α :=
  let frameSize := sampleRate / fps
  if lt frameSize (fin 1024) then fin 1024
  else JSNum.pow2 L (ceil (JSNum.log L frameSize / JSNum.log L (fin 2)))

/-! ## `src/audioServer.js`: decoding a raw frame -/

/-- The method `buffer.readInt16LE(offset)` on a buffer of bytes: the two bytes at `offset`,
little-endian, as a signed 16-bit integer; a `RangeError` when they are not both inside the
buffer. -/
def readInt16LE (buffer : List Nat) (offset : Nat) : Except JSError Int :=
  match buffer.get? offset, buffer.get? (offset + 1) with
  | some lo, some hi =>
    let v : Int := ((lo % 256 + 256 * (hi % 256) : Nat) : Int)
    .ok (if v < 32768 then v else v - 65536)
  | _, _ => .error .rangeError

/-- The samples read by a loop `for (let i = 0; i < buffer.length; i += 2)` whose body calls
`buffer.readInt16LE(i)`. -/
def readSamples (buffer : List Nat) : Except JSError (List Int) :=
  (List.range ((buffer.length + 1) / 2)).mapM fun k => readInt16LE buffer (2 * k)

/-- The two bytes `writeInt16LE(sample, i)` stores. -/
def int16Bytes (sample : Int) : List Nat :=
  let u := (sample % 65536).toNat
  [u % 256, u / 256]

/-- The function `filterAudio`: every sample is read and written back at its offset. -/
def filterAudio (buffer : List Nat) : Except JSError (List Nat) := do
  let samples ← readSamples buffer
  return samples.flatMap int16Bytes

/-- The array `data` of `audioToWS_Stream`: each sample of the filtered buffer divided by
32767. This is the input of the FFT and of `calculateDB`. -/
def audioToWS_Stream_data (α : Type) [LinearOrderedField α] [FloorRing α] (buffer : List Nat) :
    Except JSError (List (JSNum α)) := do
  let buffer ← filterAudio buffer
  let samples ← readSamples buffer
  return samples.map fun sample => fin (sample : α) / fin 32767

/-- The array `waveform` of `audioToWS_Stream`: the samples of the filtered buffer. -/
def audioToWS_Stream_waveform (buffer : List Nat) : Except JSError (List Int) := do
  let buffer ← filterAudio buffer
  readSamples buffer

/-! ## `src/audioServer.js`: the max-frequency filter -/

/-- The method `array.filter(callback)`: the elements for which `callback(element, index)` is
truthy, in their order; the index of the first element of the list is `index`. -/
def arrayFilter {β : Type} (callback : β → Nat → Bool) : List β → Nat → List β
  | [], _ => []
  | element :: rest, index =>
    if callback element index then element :: arrayFilter callback rest (index + 1)
    else arrayFilter callback rest (index + 1)

/-- The constant `frequencies` of `audioToWS_Stream`: the entries of `fftFreq(phasors)` that are
`<= maxFrequency`. -/
def audioToWS_Stream_frequencies (fftFreq : List (JSNum α)) (maxFrequency : JSNum α) :
    List (JSNum α) :=
  arrayFilter (fun freq _ => le freq maxFrequency) fftFreq 0

/-- The constant `amplitudes` of `audioToWS_Stream`: the entries of `fftMag(phasors)` at whose
index the filtered array `frequencies` has an entry `<= maxFrequency`. Past the end of
`frequencies` the entry is `undefined`, which compares as NaN. -/
def audioToWS_Stream_amplitudes (frequencies fftMag : List (JSNum α))
    (maxFrequency : JSNum α) : List (JSNum α) :=
  arrayFilter (fun _ index => le (frequencies.getD index nan) maxFrequency) fftMag 0

/-! ## `src/audioServer.js`: the relay of `app.ws('/audioStream')` -/

/-- The state of the relay: the `streamingListener`s registered on `streamingEvent`, each named
by the session whose connection handler created it, in the order of registration; the global
`isWSConnected`; and the log of the calls `ws.send`, the session and the frame of each. -/
structure RelayState (Frame : Type) where
  listeners : List Nat
  isWSConnected : Bool
  sent : List (Nat × Frame)
  deriving DecidableEq, Repr

/-- What happens at the relay. Every session has a number of its own and connects once. -/
inductive RelayEvent (Frame : Type) where
  /-- A session connects: the handler of `app.ws` runs for its `ws`. -/
  | connect (session : Nat) : RelayEvent Frame
  /-- A session sends a message of type `subscribe`. -/
  | subscribe (session : Nat) : RelayEvent Frame
  /-- The event `close` of a session. -/
  | close (session : Nat) : RelayEvent Frame
  /-- The event `error` of a session. -/
  | error (session : Nat) : RelayEvent Frame
  /-- The call `streamingEvent.emit('streaming', frame)` of `audioToWS_Stream`. -/
  | publish (frame : Frame) : RelayEvent Frame
  deriving DecidableEq, Repr

namespace RelayState

variable {Frame : Type}

/-- The relay before any session has connected: `isWSConnected` starts false. -/
def init (Frame : Type) : RelayState Frame := ⟨[], false, []⟩

/-- The function `streamingListener` of one session, called with a frame:
`if (isWSConnected) ws.send(...)`. -/
def streamingListener (st : RelayState Frame) (session : Nat) (data : Frame) :
    RelayState Frame :=
  if st.isWSConnected then { st with sent := st.sent ++ [(session, data)] } else st

/-- The handler of `app.ws` for a new session: it ends with
`streamingEvent.on('streaming', streamingListener)`. -/
def onConnect (st : RelayState Frame) (session : Nat) : RelayState Frame :=
  { st with listeners := st.listeners ++ [session] }

/-- The handler of `message` for a message of type `subscribe`: it sets `isWSConnected` and
starts the capture. -/
def onSubscribe (st : RelayState Frame) : RelayState Frame :=
  { st with isWSConnected := true }

/-- The handler of `close`: `removeListener` takes the session's registration away, and
`isWSConnected` becomes false. -/
def onClose (st : RelayState Frame) (session : Nat) : RelayState Frame :=
  { st with listeners := st.listeners.erase session, isWSConnected := false }

/-- The handler of `error`: as for `close`, and the error is logged. -/
def onError (st : RelayState Frame) (session : Nat) : RelayState Frame :=
  { st with listeners := st.listeners.erase session, isWSConnected := false }

/-- The call `streamingEvent.emit('streaming', frame)`: the registered listeners are called in
the order of registration. -/
def emit (st : RelayState Frame) (frame : Frame) : RelayState Frame :=
  st.listeners.foldl (fun st session => streamingListener st session frame) st

/-- One event at the relay. -/
def step (st : RelayState Frame) : RelayEvent Frame → RelayState Frame
  | .connect session => onConnect st session
  | .subscribe _ => onSubscribe st
  | .close session => onClose st session
  | .error session => onError st session
  | .publish frame => emit st frame

/-- A sequence of events at the relay. -/
def run (st : RelayState Frame) (events : List (RelayEvent Frame)) : RelayState Frame :=
  events.foldl step st

/-- The frames sent to one session, oldest first. -/
def received (st : RelayState Frame) (session : Nat) : List Frame :=
  (st.sent.filter fun m => m.1 == session).map Prod.snd

end RelayState

/-! ## `src/lib/audio_adapter.js`: the connection of `AudioAdapter` -/

/-- The fields of `AudioAdapter` that its connection handling reads and writes: `this.ws` (the
sockets are numbered from 1 in the order `#connect` creates them), `this.isConnected`,
`this.subscribeToAudioStream` (`null` or the stored text), the `setTimeout` callbacks of
`#reconnect` that have not run yet, and the log of the calls `this.ws.send`, the socket and the
text of each. -/
structure AudioAdapter where
  ws : Nat
  isConnected : Bool
  subscribeToAudioStream : Option String
  timers : Nat
  sent : List (Nat × String)
  deriving DecidableEq, Repr

/-- What happens at the adapter. -/
inductive AdapterEvent where
  /-- The event `open` of `this.ws`. -/
  | opened : AdapterEvent
  /-- The event `close` of `this.ws`. -/
  | closed : AdapterEvent
  /-- The event `error` of `this.ws`. -/
  | errored : AdapterEvent
  /-- The event `message` of `this.ws`. -/
  | message (msg : String) : AdapterEvent
  /-- A callback of `setTimeout` set by `#reconnect` runs. -/
  | timer : AdapterEvent
  /-- The handler `onEncoderPress` runs for encoder 0, with the JSON text of the three values
  it has found for the chosen device. -/
  | encoderPress (sampleRate frameSize audioDeviceID : String) : AdapterEvent
  deriving DecidableEq, Repr

/-- The text `JSON.stringify` gives for the object with the one field `type: 'getDevices'`. -/
def getDevicesMessage : String := "\x7b\"type\":\"getDevices\"\x7d"

/-- The text `JSON.stringify` gives for the subscribe object of `onEncoderPress`, from the JSON
text of its three values. -/
def subscribeMessage (sampleRate frameSize audioDeviceID : String) : String :=
  "\x7b\"type\":\"subscribe\",\"data\":\x7b\"sampleRate\":" ++ sampleRate ++
    ",\"frameSize\":" ++ frameSize ++ ",\"audioDeviceID\":" ++ audioDeviceID ++ "\x7d\x7d"

namespace AudioAdapter

/-- The method `#connect`: a new socket becomes `this.ws`. -/
def connect (self : AudioAdapter) : AudioAdapter := { self with ws := self.ws + 1 }

/-- The constructor: the fields are set and `#connect` creates socket 1. -/
def new : AudioAdapter := connect ⟨0, false, none, 0, []⟩

/-- The call `this.ws.send(text)`. -/
def send (self : AudioAdapter) (text : String) : AudioAdapter :=
  { self with sent := self.sent ++ [(self.ws, text)] }

/-- The method `#reconnect`: `setTimeout` is called when the adapter is not connected. -/
def reconnect (self : AudioAdapter) : AudioAdapter :=
  if !self.isConnected then { self with timers := self.timers + 1 } else self

/-- The handler of `open`: the devices are asked for, and
`if (this.subscribeToAudioStream) this.ws.send(this.subscribeToAudioStream)`, where `null` and
the empty text are falsy. -/
def onOpen (self : AudioAdapter) : AudioAdapter :=
  let self := { self with isConnected := true }
  let self := self.send getDevicesMessage
  match self.subscribeToAudioStream with
  | some text => if text != "" then self.send text else self
  | none => self

/-- The handler of `close`. -/
def onClose (self : AudioAdapter) : AudioAdapter :=
  reconnect { self with isConnected := false }

/-- The handler of `error`: the error is logged and `this.ws.close()` is called, whose `close`
event is an event of its own. -/
def onError (self : AudioAdapter) : AudioAdapter := self

/-- The handler of `message`: it draws a frame or stores the devices, and touches none of the
fields above. -/
def onMessage (self : AudioAdapter) (_msg : String) : AudioAdapter := self

/-- A callback of `setTimeout` set by `#reconnect`: it calls `#connect`. -/
def onTimer (self : AudioAdapter) : AudioAdapter :=
  if self.timers = 0 then self else connect { self with timers := self.timers - 1 }

/-- The handler `onEncoderPress` for encoder 0: the payload is stored in
`this.subscribeToAudioStream` and sent. -/
def onEncoderPress (self : AudioAdapter) (sampleRate frameSize audioDeviceID : String) :
    AudioAdapter :=
  let text := subscribeMessage sampleRate frameSize audioDeviceID
  send { self with subscribeToAudioStream := some text } text

/-- One event at the adapter. -/
def step (self : AudioAdapter) : AdapterEvent → AudioAdapter
  | .opened => onOpen self
  | .closed => onClose self
  | .errored => onError self
  | .message msg => onMessage self msg
  | .timer => onTimer self
  | .encoderPress sampleRate frameSize audioDeviceID =>
    onEncoderPress self sampleRate frameSize audioDeviceID

/-- A sequence of events at the adapter. -/
def run (self : AudioAdapter) (events : List AdapterEvent) : AudioAdapter :=
  events.foldl step self

end AudioAdapter

/-- Whether an event is a run of `onEncoderPress`. -/
def AdapterEvent.isPress : AdapterEvent → Bool
  | .encoderPress _ _ _ => true
  | _ => false

/-! ## The formulas of the specification -/

/-- The name of the equal-tempered note `n` semitones from A4 as the specification gives it:
`noteNames[(n + 9) mod 12]` with the non-negative remainder, followed by the octave number
`4 + floor((n + 9) / 12)`. -/
def equalTemperedNote (n : ℤ) : String :=
  noteNames.getD ((n + 9) % 12).toNat "undefined" ++ toString (4 + (n + 9) / 12)

/-- The adjusted bin index the specification computes for a frequency:
`floor(floor((log10(f) - log10(minFreq)) / binSize) / aggregationFactor)` with
`binSize = (log10(maxFreq) - log10(minFreq)) / numBins`. -/
def adjustedBinIndex (M : MathLib α) (numBins minFreq maxFreq aggregationFactor
    frequency : JSNum α) : JSNum α :=
  floor (floor ((log10 M frequency - log10 M minFreq) /
    ((log10 M maxFreq - log10 M minFreq) / numBins)) / aggregationFactor)

/-- Whether, by the specification, a point of the given frequency is summed into output bin
`j`: `minFreq <= f <= maxFreq` and its adjusted bin index is `j`. -/
def contributesTo (M : MathLib α) (numBins minFreq maxFreq aggregationFactor : JSNum α)
    (j : Nat) (frequency : JSNum α) : Bool :=
  le minFreq frequency && le frequency maxFreq &&
    decide (adjustedBinIndex M numBins minFreq maxFreq aggregationFactor frequency
      = fin (j : α))

/-- A `MathLib ℚ` for running the definitions on concrete inputs. Its values stand in for the
implementation's; the closed evaluations below are of inputs whose result does not depend on
them. -/
def testMath : MathLib ℚ := ⟨fun x => x, fun x => x, fun x => x, fun x => x, fun _ => "?"⟩

/-- The values of `Math.log10` and `Math.pow(10, ·)` in double-precision arithmetic at the
arguments the evaluations below use, each double written as the rational number it is:
`Math.log10(20) = 1.3010299956639813`, `Math.log10(20000) = 4.301029995663981`,
`Math.log10(1000) = 3`, `Math.log10(999.9999999999999) = 3`,
`Math.log10(4503599627370496) = Math.log10(4503599627370497) = 15.653559774527022`, and
`Math.pow(10, ·)` of `1.3010299956639813`, `2.3010299956639813`, `3.3010299956639813`,
`4.301029995663981` and `15.653559774527022`, which are `20.000000000000004`,
`200.00000000000003`, `2000.0000000000002`, `20000.000000000004` and `4503599627370490.5`.
It is a table of these values only: every other argument is sent to 0, and no evaluation below
reaches one. -/
def doubleMath : MathLib ℚ where
  sqrt := fun _ => 0
  log10 := fun x =>
    if x = 20 then 45775923466173 / 35184372088832
    else if x = 20000 then 151329039732669 / 35184372088832
    else if x = 1000 then 3
    else if x = 8796093022207999 / 8796093022208 then 3
    else if x = 4503599627370496 then 4406085372973855 / 281474976710656
    else if x = 4503599627370497 then 4406085372973855 / 281474976710656
    else 0
  log2 := fun _ => 0
  pow10 := fun y =>
    if y = 45775923466173 / 35184372088832 then 5629499534213121 / 281474976710656
    else if y = 80960295555005 / 35184372088832 then 7036874417766401 / 35184372088832
    else if y = 116144667643837 / 35184372088832 then 8796093022208001 / 4398046511104
    else if y = 151329039732669 / 35184372088832 then 5497558138880001 / 274877906944
    else if y = 4406085372973855 / 281474976710656 then 9007199254740981 / 2
    else 0
  showOther := fun _ => "?"

/-- The values of `Math.log` and `Math.pow(2, ·)` in double-precision arithmetic at the
arguments the evaluation below uses, each double written as the rational number it is:
`Math.log(2) = 0.6931471805599453`, `Math.log(536870912) = 20.101268236238415` and
`Math.pow(2, 30) = 1073741824`. It is a table of these values only: every other argument is
sent to 0, and no evaluation below reaches one. -/
def doubleLog : MathLog ℚ where
  log := fun x =>
    if x = 2 then 6243314768165359 / 9007199254740992
    else if x = 536870912 then 5658004008649857 / 281474976710656
    else 0
  pow2 := fun y => if y = 30 then 1073741824 else 0

/-! ## Theorems -/

namespace JSNum

@[simp] theorem neg_eq_1 :
    neg (nan : JSNum α) = nan := rfl
@[simp] theorem neg_eq_2 :
    neg (negInf : JSNum α) = posInf := rfl
@[simp] theorem neg_eq_3 :
    neg (posInf : JSNum α) = negInf := rfl
@[simp] theorem neg_eq_4 (x : α) :
    neg (fin x) = fin (-x) := rfl
@[simp] theorem add_eq_1 (b : JSNum α) :
    add (nan : JSNum α) b = nan := by cases b <;> rfl
@[simp] theorem add_eq_2 :
    add (posInf : JSNum α) nan = nan := rfl
@[simp] theorem add_eq_3 :
    add (posInf : JSNum α) negInf = nan := rfl
@[simp] theorem add_eq_4 :
    add (posInf : JSNum α) posInf = posInf := rfl
@[simp] theorem add_eq_5 (y : α) :
    add (posInf : JSNum α) (fin y) = posInf := rfl
@[simp] theorem add_eq_6 :
    add (negInf : JSNum α) nan = nan := rfl
@[simp] theorem add_eq_7 :
    add (negInf : JSNum α) negInf = negInf := rfl
@[simp] theorem add_eq_8 :
    add (negInf : JSNum α) posInf = nan := rfl
@[simp] theorem add_eq_9 (y : α) :
    add (negInf : JSNum α) (fin y) = negInf := rfl
@[simp] theorem add_eq_10 (x : α) :
    add (fin x) nan = nan := rfl
@[simp] theorem add_eq_11 (x : α) :
    add (fin x) negInf = negInf := rfl
@[simp] theorem add_eq_12 (x : α) :
    add (fin x) posInf = posInf := rfl
@[simp] theorem add_eq_13 (x : α) (y : α) :
    add (fin x) (fin y) = fin (x + y) := rfl
@[simp] theorem mul_eq_1 (b : JSNum α) :
    mul (nan : JSNum α) b = nan := by cases b <;> rfl
@[simp] theorem mul_eq_2 :
    mul (posInf : JSNum α) nan = nan := rfl
@[simp] theorem mul_eq_3 :
    mul (posInf : JSNum α) negInf = negInf := rfl
@[simp] theorem mul_eq_4 :
    mul (posInf : JSNum α) posInf = posInf := rfl
@[simp] theorem mul_eq_5 (y : α) :
    mul (posInf : JSNum α) (fin y) = infTimes y := rfl
@[simp] theorem mul_eq_6 :
    mul (negInf : JSNum α) nan = nan := rfl
@[simp] theorem mul_eq_7 :
    mul (negInf : JSNum α) negInf = posInf := rfl
@[simp] theorem mul_eq_8 :
    mul (negInf : JSNum α) posInf = negInf := rfl
@[simp] theorem mul_eq_9 (y : α) :
    mul (negInf : JSNum α) (fin y) = infTimes (-y) := rfl
@[simp] theorem mul_eq_10 (x : α) :
    mul (fin x) nan = nan := rfl
@[simp] theorem mul_eq_11 (x : α) :
    mul (fin x) negInf = infTimes (-x) := rfl
@[simp] theorem mul_eq_12 (x : α) :
    mul (fin x) posInf = infTimes x := rfl
@[simp] theorem mul_eq_13 (x : α) (y : α) :
    mul (fin x) (fin y) = fin (x * y) := rfl
@[simp] theorem div_eq_1 (b : JSNum α) :
    div (nan : JSNum α) b = nan := by cases b <;> rfl
@[simp] theorem div_eq_2 :
    div (posInf : JSNum α) nan = nan := rfl
@[simp] theorem div_eq_3 :
    div (posInf : JSNum α) negInf = nan := rfl
@[simp] theorem div_eq_4 :
    div (posInf : JSNum α) posInf = nan := rfl
@[simp] theorem div_eq_5 (y : α) :
    div (posInf : JSNum α) (fin y) = if 0 ≤ y then posInf else negInf := rfl
@[simp] theorem div_eq_6 :
    div (negInf : JSNum α) nan = nan := rfl
@[simp] theorem div_eq_7 :
    div (negInf : JSNum α) negInf = nan := rfl
@[simp] theorem div_eq_8 :
    div (negInf : JSNum α) posInf = nan := rfl
@[simp] theorem div_eq_9 (y : α) :
    div (negInf : JSNum α) (fin y) = if 0 ≤ y then negInf else posInf := rfl
@[simp] theorem div_eq_10 (x : α) :
    div (fin x) nan = nan := rfl
@[simp] theorem div_eq_11 (x : α) :
    div (fin x) negInf = fin 0 := rfl
@[simp] theorem div_eq_12 (x : α) :
    div (fin x) posInf = fin 0 := rfl
@[simp] theorem div_eq_13 (x : α) (y : α) :
    div (fin x) (fin y) = if y = 0 then infTimes x else fin (x / y) := rfl
@[simp] theorem mod_eq_1 (b : JSNum α) :
    mod (nan : JSNum α) b = nan := by cases b <;> rfl
@[simp] theorem mod_eq_2 (b : JSNum α) :
    mod (posInf : JSNum α) b = nan := by cases b <;> rfl
@[simp] theorem mod_eq_3 (b : JSNum α) :
    mod (negInf : JSNum α) b = nan := by cases b <;> rfl
@[simp] theorem mod_eq_4 (x : α) :
    mod (fin x) nan = nan := rfl
@[simp] theorem mod_eq_5 (x : α) :
    mod (fin x) negInf = fin x := rfl
@[simp] theorem mod_eq_6 (x : α) :
    mod (fin x) posInf = fin x := rfl
@[simp] theorem mod_eq_7 (x : α) (y : α) :
    mod (fin x) (fin y) = if y = 0 then nan else fin (x - y * (trunc (x / y) : α)) := rfl
@[simp] theorem lt_eq_1 :
    lt (negInf : JSNum α) posInf = true := rfl
@[simp] theorem lt_eq_2 (y : α) :
    lt (negInf : JSNum α) (fin y) = true := rfl
@[simp] theorem lt_eq_3 (x : α) :
    lt (fin x) posInf = true := rfl
@[simp] theorem lt_eq_4 (x : α) (y : α) :
    lt (fin x) (fin y) = decide (x < y) := rfl
@[simp] theorem lt_eq_5 (b : JSNum α) :
    lt (nan : JSNum α) b = false := by cases b <;> rfl
@[simp] theorem lt_eq_6 (b : JSNum α) :
    lt (posInf : JSNum α) b = false := by cases b <;> rfl
@[simp] theorem lt_eq_7 :
    lt (negInf : JSNum α) nan = false := rfl
@[simp] theorem lt_eq_8 :
    lt (negInf : JSNum α) negInf = false := rfl
@[simp] theorem lt_eq_9 (x : α) :
    lt (fin x) nan = false := rfl
@[simp] theorem lt_eq_10 (x : α) :
    lt (fin x) negInf = false := rfl
@[simp] theorem le_eq_1 :
    le (negInf : JSNum α) negInf = true := rfl
@[simp] theorem le_eq_2 :
    le (negInf : JSNum α) posInf = true := rfl
@[simp] theorem le_eq_3 (y : α) :
    le (negInf : JSNum α) (fin y) = true := rfl
@[simp] theorem le_eq_4 :
    le (posInf : JSNum α) posInf = true := rfl
@[simp] theorem le_eq_5 (x : α) :
    le (fin x) posInf = true := rfl
@[simp] theorem le_eq_6 (x : α) (y : α) :
    le (fin x) (fin y) = decide (x ≤ y) := rfl
@[simp] theorem le_eq_7 (b : JSNum α) :
    le (nan : JSNum α) b = false := by cases b <;> rfl
@[simp] theorem le_eq_8 :
    le (negInf : JSNum α) nan = false := rfl
@[simp] theorem le_eq_9 :
    le (posInf : JSNum α) nan = false := rfl
@[simp] theorem le_eq_10 :
    le (posInf : JSNum α) negInf = false := rfl
@[simp] theorem le_eq_11 (y : α) :
    le (posInf : JSNum α) (fin y) = false := rfl
@[simp] theorem le_eq_12 (x : α) :
    le (fin x) nan = false := rfl
@[simp] theorem le_eq_13 (x : α) :
    le (fin x) negInf = false := rfl
@[simp] theorem strictEq_eq_1 : strictEq (negInf : JSNum α) negInf = true := rfl
@[simp] theorem strictEq_eq_2 : strictEq (posInf : JSNum α) posInf = true := rfl
@[simp] theorem strictEq_eq_3 (x : α) (y : α) :
    strictEq (fin x) (fin y) = decide (x = y) := rfl
@[simp] theorem strictEq_eq_4 (b : JSNum α) : strictEq (nan : JSNum α) b = false := by
  cases b <;> rfl
@[simp] theorem strictEq_eq_5 (a : JSNum α) : strictEq a nan = false := by
  cases a <;> rfl
@[simp] theorem strictEq_eq_6 : strictEq (negInf : JSNum α) posInf = false := rfl
@[simp] theorem strictEq_eq_7 (y : α) : strictEq (negInf : JSNum α) (fin y) = false := rfl
@[simp] theorem strictEq_eq_8 : strictEq (posInf : JSNum α) negInf = false := rfl
@[simp] theorem strictEq_eq_9 (y : α) : strictEq (posInf : JSNum α) (fin y) = false := rfl
@[simp] theorem strictEq_eq_10 (x : α) : strictEq (fin x) negInf = false := rfl
@[simp] theorem strictEq_eq_11 (x : α) : strictEq (fin x) posInf = false := rfl
@[simp] theorem truthy_eq_1 :
    truthy (nan : JSNum α) = false := rfl
@[simp] theorem truthy_eq_2 :
    truthy (negInf : JSNum α) = true := rfl
@[simp] theorem truthy_eq_3 :
    truthy (posInf : JSNum α) = true := rfl
@[simp] theorem truthy_eq_4 (x : α) :
    truthy (fin x) = decide (x ≠ 0) := rfl
@[simp] theorem floor_eq_1 :
    floor (nan : JSNum α) = nan := rfl
@[simp] theorem floor_eq_2 :
    floor (negInf : JSNum α) = negInf := rfl
@[simp] theorem floor_eq_3 :
    floor (posInf : JSNum α) = posInf := rfl
@[simp] theorem floor_eq_4 (x : α) :
    floor (fin x) = fin ((⌊x⌋ : ℤ) : α) := rfl
@[simp] theorem ceil_eq_1 :
    ceil (nan : JSNum α) = nan := rfl
@[simp] theorem ceil_eq_2 :
    ceil (negInf : JSNum α) = negInf := rfl
@[simp] theorem ceil_eq_3 :
    ceil (posInf : JSNum α) = posInf := rfl
@[simp] theorem ceil_eq_4 (x : α) :
    ceil (fin x) = fin ((⌈x⌉ : ℤ) : α) := rfl
@[simp] theorem sqrt_eq_1 (M : MathLib α) :
    sqrt M (nan : JSNum α) = nan := rfl
@[simp] theorem sqrt_eq_2 (M : MathLib α) :
    sqrt M (negInf : JSNum α) = nan := rfl
@[simp] theorem sqrt_eq_3 (M : MathLib α) :
    sqrt M (posInf : JSNum α) = posInf := rfl
@[simp] theorem sqrt_eq_4 (M : MathLib α) (x : α) :
    sqrt M (fin x) = if x < 0 then nan else if x = 0 then fin 0 else fin (M.sqrt x) := rfl
@[simp] theorem log10_eq_1 (M : MathLib α) :
    log10 M (nan : JSNum α) = nan := rfl
@[simp] theorem log10_eq_2 (M : MathLib α) :
    log10 M (negInf : JSNum α) = nan := rfl
@[simp] theorem log10_eq_3 (M : MathLib α) :
    log10 M (posInf : JSNum α) = posInf := rfl
@[simp] theorem log10_eq_4 (M : MathLib α) (x : α) :
    log10 M (fin x) =  if x < 0 then nan else if x = 0 then negInf else if x = 1 then fin 0 else fin (M.log10 x) := rfl
@[simp] theorem log2_eq_1 (M : MathLib α) :
    log2 M (nan : JSNum α) = nan := rfl
@[simp] theorem log2_eq_2 (M : MathLib α) :
    log2 M (negInf : JSNum α) = nan := rfl
@[simp] theorem log2_eq_3 (M : MathLib α) :
    log2 M (posInf : JSNum α) = posInf := rfl
@[simp] theorem log2_eq_4 (M : MathLib α) (x : α) :
    log2 M (fin x) =  if x < 0 then nan else if x = 0 then negInf else if x = 1 then fin 0 else fin (M.log2 x) := rfl
@[simp] theorem pow10_eq_1 (M : MathLib α) :
    pow10 M (nan : JSNum α) = nan := rfl
@[simp] theorem pow10_eq_2 (M : MathLib α) :
    pow10 M (negInf : JSNum α) = fin 0 := rfl
@[simp] theorem pow10_eq_3 (M : MathLib α) :
    pow10 M (posInf : JSNum α) = posInf := rfl
@[simp] theorem pow10_eq_4 (M : MathLib α) (y : α) :
    pow10 M (fin y) = if y = 0 then fin 1 else fin (M.pow10 y) := rfl

@[simp] theorem neg_def (a : JSNum α) : -a = neg a := rfl
@[simp] theorem add_def (a b : JSNum α) : a + b = add a b := rfl
@[simp] theorem sub_def (a b : JSNum α) : a - b = sub a b := rfl
@[simp] theorem mul_def (a b : JSNum α) : a * b = mul a b := rfl
@[simp] theorem div_def (a b : JSNum α) : a / b = div a b := rfl
@[simp] theorem mod_def (a b : JSNum α) : a % b = mod a b := rfl

end JSNum

/-! ### `calculateDB` on silence -/

theorem foldl_squares_zero (n : Nat) :
    (List.replicate n (fin (0 : α))).foldl (fun rms a => rms + a * a) (fin 0) = fin 0 := by
  induction n with
  | zero => rfl
  | succ n ih => simpa [List.replicate_succ] using ih

/-- C1: `calculateDB([])` is the sentinel -1000, but on every non-empty all-zero frame
`calculateDB` returns `-Infinity`: `-Infinity` is truthy, so `db || -1000` lets it through. -/
theorem calculateDB_silence (M : MathLib α) :
    calculateDB M [] = fin (-1000) ∧
    ∀ n : Nat, calculateDB M (List.replicate (n + 1) (fin 0)) = negInf := by
  refine ⟨by simp [calculateDB, JSNum.or, infTimes], fun n => ?_⟩
  have h : ((n : α) + 1) ≠ 0 := by positivity
  simp only [calculateDB, foldl_squares_zero]
  have h20 : ¬ ((20 : α) < 0) := by norm_num
  simp [h, h20, JSNum.or, infTimes]

/-! ### Order facts -/

namespace JSNum

theorem le_of_lt_eq_false {a b : JSNum α} (ha : a ≠ nan) (hb : b ≠ nan)
    (h : lt a b = false) : le b a = true := by
  cases a <;> cases b <;> simp_all

theorem le_of_lt_eq_true {a b : JSNum α} (h : lt a b = true) : le a b = true := by
  cases a <;> cases b <;> simp_all
  exact le_of_lt h

theorem le_trans_eq_true {a b c : JSNum α} (hab : le a b = true) (hbc : le b c = true) :
    le a c = true := by
  cases a <;> cases b <;> cases c <;> simp_all
  exact le_trans hab hbc

theorem le_self {a : JSNum α} (ha : a ≠ nan) : le a a = true := by
  cases a <;> simp_all

theorem ne_nan_of_lt {a b : JSNum α} (h : lt a b = true) : b ≠ nan := by
  cases a <;> cases b <;> simp_all

end JSNum

/-! ### The relay after a session has closed -/

theorem emit_of_not_connected {Frame : Type} (st : RelayState Frame)
    (h : st.isWSConnected = false) (frame : Frame) : st.emit frame = st := by
  unfold RelayState.emit
  generalize st.listeners = ls
  induction ls with
  | nil => rfl
  | cons l ls ih => simpa [List.foldl_cons, RelayState.streamingListener, h] using ih

theorem run_publish_of_not_connected {Frame : Type} (frames : List Frame)
    (st : RelayState Frame) (h : st.isWSConnected = false) :
    st.run (frames.map .publish) = st := by
  induction frames with
  | nil => rfl
  | cons f fs ih =>
    simp only [List.map_cons, RelayState.run, List.foldl_cons, RelayState.step,
      emit_of_not_connected st h]
    exact ih

/-- After the `close` or `error` of any session the global `isWSConnected` is false, and no
frame published before the next `subscribe` is sent to any session. -/
theorem relay_silent_after_close {Frame : Type} (st : RelayState Frame) (session : Nat)
    (frames : List Frame) :
    ((st.step (.close session)).run (frames.map .publish)).sent = st.sent ∧
    ((st.step (.error session)).run (frames.map .publish)).sent = st.sent := by
  constructor
  · rw [run_publish_of_not_connected frames _ rfl]
    rfl
  · rw [run_publish_of_not_connected frames _ rfl]
    rfl

/-- C2: two sessions attach and session 1 subscribes; the frame 100 reaches both. Then session 1
closes (or errors): the frames 200 and 300 published afterwards are sent to nobody, and session
2, still attached, has received only frame 100. A new `subscribe` is what makes frames flow
again. -/
theorem relay_close_starves_other_session :
    ((RelayState.init Nat).run
      [.connect 1, .connect 2, .subscribe 1, .publish 100]).received 2 = [100] ∧
    ((RelayState.init Nat).run
      [.connect 1, .connect 2, .subscribe 1, .publish 100, .close 1, .publish 200,
        .publish 300]).listeners = [2] ∧
    ((RelayState.init Nat).run
      [.connect 1, .connect 2, .subscribe 1, .publish 100, .close 1, .publish 200,
        .publish 300]).received 2 = [100] ∧
    ((RelayState.init Nat).run
      [.connect 1, .connect 2, .subscribe 1, .publish 100, .error 1, .publish 200,
        .publish 300]).received 2 = [100] ∧
    ((RelayState.init Nat).run
      [.connect 1, .connect 2, .subscribe 1, .publish 100, .close 1, .publish 200,
        .subscribe 2, .publish 300]).received 2 = [100, 300] := by
  decide

/-! ### `Binsamplitudes`: the length of the result -/

theorem addAt_length (bins : List (JSNum α)) (index amplitude : JSNum α) :
    (addAt bins index amplitude).length = bins.length := by
  cases index <;> simp [addAt]

theorem binStep_length (M : MathLib α) (minFreq maxFreq minLog binSize aggregationFactor
    adjustedNumBins : JSNum α) (bins : List (JSNum α)) (frequency amplitude : JSNum α) :
    (binStep M minFreq maxFreq minLog binSize aggregationFactor adjustedNumBins bins frequency
      amplitude).length = bins.length := by
  unfold binStep
  split
  · rfl
  · dsimp only
    split
    · exact addAt_length _ _ _
    · rfl

theorem binLoop_length (M : MathLib α) (minFreq maxFreq minLog binSize aggregationFactor
    adjustedNumBins : JSNum α) (frequencies amplitudes bins : List (JSNum α)) :
    (binLoop M minFreq maxFreq minLog binSize aggregationFactor adjustedNumBins frequencies
      amplitudes bins).length = bins.length := by
  induction frequencies generalizing amplitudes bins with
  | nil => rfl
  | cons f fs ih => rw [binLoop, ih, binStep_length]

theorem newArray_ofNat (n : Nat) (hn : n ≤ 4294967295) :
    newArray (fin (n : α)) = .ok n := by
  have h : (n : α) ≤ 4294967295 := by exact_mod_cast hn
  simp [newArray, h]

/-- C3 (amended): whenever `ceil(numBins / aggregationFactor)` is a valid array length `n` (an
integer from 0 to 2^32 - 1), `Binsamplitudes` returns a sequence of exactly `n` amplitudes,
whatever the frequencies, amplitudes and frequency bounds. -/
theorem Binsamplitudes_length (M : MathLib α) (frequencies amplitudes : List (JSNum α))
    (numBins minFreq maxFreq aggregationFactor : JSNum α) (n : Nat)
    (hceil : ceil (numBins / aggregationFactor) = fin (n : α)) (hn : n ≤ 4294967295) :
    ∃ bins, Binsamplitudes M frequencies amplitudes numBins minFreq maxFreq aggregationFactor
      = .ok bins ∧ bins.length = n := by
  unfold Binsamplitudes
  simp only [hceil, newArray_ofNat n hn]
  exact ⟨_, rfl, by rw [binLoop_length, List.length_replicate]⟩

/-- When `ceil(numBins / aggregationFactor)` is not a valid array length, `Binsamplitudes`
throws what `new Array` throws. -/
theorem Binsamplitudes_error (M : MathLib α) (frequencies amplitudes : List (JSNum α))
    (numBins minFreq maxFreq aggregationFactor : JSNum α) (e : JSError)
    (h : newArray (ceil (numBins / aggregationFactor)) = .error e) :
    Binsamplitudes M frequencies amplitudes numBins minFreq maxFreq aggregationFactor
      = .error e := by
  simp only [Binsamplitudes, h]
  rfl

/-- C3 (witness): three bins aggregated by two give `ceil(3 / 2) = 2` amplitudes. -/
theorem Binsamplitudes_length_witness :
    ceil (fin 3 / fin 2 : JSNum ℚ) = fin ((2 : Nat) : ℚ) ∧ 2 ≤ 4294967295 ∧
    ∃ bins, Binsamplitudes testMath [fin 20, fin 30, fin 45] [fin 1, fin 2, fin 4]
      (fin 3) (fin 20) (fin 50) (fin 2) = .ok bins ∧ bins.length = 2 :=
  have hceil : ceil (fin 3 / fin 2 : JSNum ℚ) = fin ((2 : Nat) : ℚ) := by
    have h : ⌈(3 / 2 : ℚ)⌉ = 2 := by rw [Int.ceil_eq_iff]; norm_num
    simp [h]
  ⟨hceil, by norm_num, Binsamplitudes_length testMath _ _ _ _ _ _ 2 hceil (by norm_num)⟩

/-- C3 (counterexample): with aggregation factor 0 the quotient is `Infinity`, with bin count -3
it is -3; `new Array` throws a `RangeError` on both and no sequence is returned. -/
theorem Binsamplitudes_invalid_length :
    Binsamplitudes testMath [fin 20, fin 30, fin 45] [fin 1, fin 2, fin 4]
      (fin 3) (fin 20) (fin 50) (fin 0) = .error .rangeError ∧
    Binsamplitudes testMath [fin 20, fin 30, fin 45] [fin 1, fin 2, fin 4]
      (fin (-3)) (fin 20) (fin 50) (fin 1) = .error .rangeError := by
  have h : ⌈(-3 : ℚ)⌉ = -3 := by rw [Int.ceil_eq_iff]; norm_num
  constructor
  · simp [Binsamplitudes, newArray, infTimes]
  · simp [Binsamplitudes, newArray, h]
    rfl

/-! ### `BinsfrequencyRanges`: the ranges follow one another -/

theorem log10_fin_pos (M : MathLib α) {x : α} (hx : 0 < x) :
    log10 M (fin x) = fin (if x = 1 then 0 else M.log10 x) := by
  by_cases h1 : x = 1
  · subst h1
    simp
  · simp [not_lt.mpr hx.le, hx.ne', h1]

theorem pow10_fin (M : MathLib α) (y : α) :
    pow10 M (fin y) = fin (if y = 0 then 1 else M.pow10 y) := by
  by_cases h : y = 0
  · subst h
    simp
  · simp [h]

/-- C4 (amended): for an integer bin count `1 <= n <= 2^32 - 1` and finite `0 < lo < hi`,
whatever values `Math.log10` and `Math.pow` have, `BinsfrequencyRanges(n, lo, hi)` returns
exactly `n` ranges with finite bounds; the high bound of each range is the low bound of the
next; the first range starts at `Math.pow(10, Math.log10(lo))` and the last ends at
`Math.pow(10, n * binSize + Math.log10(lo))`. -/
theorem BinsfrequencyRanges_contiguous (M : MathLib α) (n : Nat) (lo hi : α)
    (hn1 : 1 ≤ n) (hn : n ≤ 4294967295) (hlo : 0 < lo) (hlt : lo < hi) :
    ∃ ranges : List (α × α),
      BinsfrequencyRanges M (fin (n : α)) (fin lo) (fin hi)
        = .ok (ranges.map fun r => (fin r.1, fin r.2)) ∧
      ranges.length = n ∧
      List.Chain' (fun r s => r.2 = s.1) ranges ∧
      ranges.head?.map (fun r => fin r.1) = some (pow10 M (log10 M (fin lo))) ∧
      ranges.getLast?.map (fun r => fin r.2) = some (pow10 M
        (fin (n : α) * ((log10 M (fin hi) - log10 M (fin lo)) / fin (n : α))
          + log10 M (fin lo))) := by
  have hn0 : (n : α) ≠ 0 := by
    have : (0 : α) < n := by exact_mod_cast hn1
    exact this.ne'
  have hhi : 0 < hi := hlo.trans hlt
  refine ⟨(List.range n).map fun index : Nat =>
    ((if (index : α) * (((if hi = 1 then 0 else M.log10 hi) -
          (if lo = 1 then 0 else M.log10 lo)) / n) + (if lo = 1 then 0 else M.log10 lo) = 0
        then 1
        else M.pow10 ((index : α) * (((if hi = 1 then 0 else M.log10 hi) -
          (if lo = 1 then 0 else M.log10 lo)) / n) + (if lo = 1 then 0 else M.log10 lo))),
     (if ((index : α) + 1) * (((if hi = 1 then 0 else M.log10 hi) -
          (if lo = 1 then 0 else M.log10 lo)) / n) + (if lo = 1 then 0 else M.log10 lo) = 0
        then 1
        else M.pow10 (((index : α) + 1) * (((if hi = 1 then 0 else M.log10 hi) -
          (if lo = 1 then 0 else M.log10 lo)) / n) + (if lo = 1 then 0 else M.log10 lo)))),
    ?_, ?_, ?_, ?_, ?_⟩
  · simp only [BinsfrequencyRanges, log10_fin_pos M hlo, log10_fin_pos M hhi,
      newArray_ofNat n hn]
    simp only [sub_def, sub, neg_eq_4, add_def, add_eq_13, div_def, div_eq_13, if_neg hn0,
      ofNat, mul_def, mul_eq_13, pow10_fin, List.map_map, ← sub_eq_add_neg]
    rfl
  · simp
  · rw [List.chain'_map]
    obtain ⟨k, rfl⟩ : ∃ k, n = k + 1 := ⟨n - 1, by omega⟩
    rw [List.chain'_range_succ]
    intro m _
    simp
  · obtain ⟨k, rfl⟩ : ∃ k, n = k + 1 := ⟨n - 1, by omega⟩
    rw [log10_fin_pos M hlo, pow10_fin]
    simp [List.range_succ_eq_map]
  · obtain ⟨k, rfl⟩ : ∃ k, n = k + 1 := ⟨n - 1, by omega⟩
    rw [log10_fin_pos M hlo, log10_fin_pos M hhi]
    simp only [sub_def, sub, neg_eq_4, add_def, add_eq_13, div_def, div_eq_13, if_neg hn0,
      mul_def, mul_eq_13, pow10_fin, ← sub_eq_add_neg]
    simp [List.range_succ]

/-- C4 (witness): three bins from 20 Hz to 20000 Hz with the values of `Math.log10` and
`Math.pow` in double-precision arithmetic. -/
theorem BinsfrequencyRanges_contiguous_witness :
    1 ≤ 3 ∧ 3 ≤ 4294967295 ∧ (0 : ℚ) < 20 ∧ (20 : ℚ) < 20000 ∧
    ∃ ranges : List (ℚ × ℚ),
      BinsfrequencyRanges doubleMath (fin ((3 : Nat) : ℚ)) (fin 20) (fin 20000)
        = .ok (ranges.map fun r => (fin r.1, fin r.2)) ∧
      ranges.length = 3 ∧
      List.Chain' (fun r s => r.2 = s.1) ranges ∧
      ranges.head?.map (fun r => fin r.1) = some (pow10 doubleMath (log10 doubleMath (fin 20))) ∧
      ranges.getLast?.map (fun r => fin r.2) = some (pow10 doubleMath
        (fin ((3 : Nat) : ℚ) * ((log10 doubleMath (fin 20000) - log10 doubleMath (fin 20))
          / fin ((3 : Nat) : ℚ)) + log10 doubleMath (fin 20))) :=
  ⟨by norm_num, by norm_num, by norm_num, by norm_num,
    BinsfrequencyRanges_contiguous doubleMath 3 20 20000 (by norm_num) (by norm_num)
      (by norm_num) (by norm_num)⟩

theorem BinsfrequencyRanges_double_20_20000 :
    BinsfrequencyRanges doubleMath (fin ((3 : Nat) : ℚ)) (fin 20) (fin 20000)
      = .ok [(fin (5629499534213121 / 281474976710656), fin (7036874417766401 / 35184372088832)),
          (fin (7036874417766401 / 35184372088832), fin (8796093022208001 / 4398046511104)),
          (fin (8796093022208001 / 4398046511104), fin (5497558138880001 / 274877906944))] := by
  simp only [BinsfrequencyRanges, newArray_ofNat 3 (by norm_num)]
  norm_num [doubleMath, List.range_succ]

/-- C4 (counterexample): 2^32 is an integer bin count `>= 1`, but `new Array(4294967296)` throws
a `RangeError`. With three bins from 20 Hz to 20000 Hz and the double-precision values of
`Math.log10` and `Math.pow`, the first range starts at 20.000000000000004 and the last ends at
20000.000000000004, not at 20 and 20000. With one bin from 4503599627370496 to
4503599627370497, whose logarithms are the same double, the range has low = high. -/
theorem BinsfrequencyRanges_not_partition :
    BinsfrequencyRanges doubleMath (fin 4294967296) (fin 20) (fin 20000)
      = .error .rangeError ∧
    (∃ ranges, BinsfrequencyRanges doubleMath (fin 3) (fin 20) (fin 20000) = .ok ranges ∧
      ranges.head?.map Prod.fst = some (fin (5629499534213121 / 281474976710656)) ∧
      ranges.getLast?.map Prod.snd = some (fin (5497558138880001 / 274877906944))) ∧
    (20 : ℚ) < 5629499534213121 / 281474976710656 ∧
    (20000 : ℚ) < 5497558138880001 / 274877906944 ∧
    ∃ bound, BinsfrequencyRanges doubleMath (fin 1) (fin 4503599627370496)
      (fin 4503599627370497) = .ok [(bound, bound)] := by
  have h3 : (fin 3 : JSNum ℚ) = fin ((3 : Nat) : ℚ) := by norm_num
  have h1 : (fin 1 : JSNum ℚ) = fin ((1 : Nat) : ℚ) := by norm_num
  refine ⟨?_, ⟨_, h3 ▸ BinsfrequencyRanges_double_20_20000, ?_, ?_⟩, by norm_num,
    by norm_num, fin (9007199254740981 / 2), ?_⟩
  · have h : ¬ ((4294967296 : ℚ) ≤ 4294967295) := by norm_num
    simp [BinsfrequencyRanges, newArray, h]
  · rfl
  · rfl
  · rw [h1]
    simp only [BinsfrequencyRanges, newArray_ofNat 1 (by norm_num)]
    norm_num [doubleMath, List.range_succ]

/-! ### `getAverageAndDominantFrequency`: the dominant amplitude -/

theorem averageStep_dominant (thr : JSNum α) (st : AverageState α) (f a : JSNum α) :
    (averageStep thr st f a).dominantFrequency =
      if gt a st.dominantFrequency.amplitude then ⟨f, a⟩ else st.dominantFrequency := by
  unfold averageStep
  dsimp only
  split <;> rfl

theorem averageStep_amplitude (thr : JSNum α) (st : AverageState α) (f a : JSNum α)
    (hst : st.dominantFrequency.amplitude ≠ nan) :
    (averageStep thr st f a).dominantFrequency.amplitude ≠ nan ∧
    le st.dominantFrequency.amplitude (averageStep thr st f a).dominantFrequency.amplitude
      = true ∧
    (a ≠ nan → le a (averageStep thr st f a).dominantFrequency.amplitude = true) := by
  rw [averageStep_dominant]
  by_cases h : gt a st.dominantFrequency.amplitude = true
  · rw [if_pos h]
    have h' : lt st.dominantFrequency.amplitude a = true := h
    exact ⟨ne_nan_of_lt h', le_of_lt_eq_true h', fun ha => le_self ha⟩
  · rw [if_neg h]
    have h' : lt st.dominantFrequency.amplitude a = false := by simpa using h
    exact ⟨hst, le_self hst, fun ha => le_of_lt_eq_false hst ha h'⟩

theorem averageLoop_amplitude (thr : JSNum α) (frequencies amplitudes : List (JSNum α))
    (st : AverageState α) (hlen : frequencies.length = amplitudes.length)
    (hst : st.dominantFrequency.amplitude ≠ nan) :
    (averageLoop thr frequencies amplitudes st).dominantFrequency.amplitude ≠ nan ∧
    le st.dominantFrequency.amplitude
      (averageLoop thr frequencies amplitudes st).dominantFrequency.amplitude = true ∧
    ∀ a ∈ amplitudes, a ≠ nan →
      le a (averageLoop thr frequencies amplitudes st).dominantFrequency.amplitude = true := by
  induction frequencies generalizing amplitudes st with
  | nil =>
    cases amplitudes with
    | nil => exact ⟨hst, le_self hst, by simp⟩
    | cons a as => simp at hlen
  | cons f fs ih =>
    cases amplitudes with
    | nil => simp at hlen
    | cons a as =>
      have hlen' : fs.length = as.length := by simpa using hlen
      obtain ⟨h1, h2, h3⟩ := averageStep_amplitude thr st f a hst
      obtain ⟨i1, i2, i3⟩ := ih as (averageStep thr st f a) hlen' h1
      simp only [averageLoop, List.headD_cons, List.tail_cons]
      refine ⟨i1, le_trans_eq_true h2 i2, ?_⟩
      intro b hb hbn
      rcases List.mem_cons.mp hb with rfl | hb
      · exact le_trans_eq_true (h3 hbn) i2
      · exact i3 b hb hbn

/-- C5: for frequency and amplitude sequences of equal length and every threshold, the
amplitude of the returned `dominantFrequency` is `>=` every amplitude of the input (every
amplitude that is a number: `NaN` compares with nothing). -/
theorem dominantFrequency_amplitude_ge (frequencies amplitudes : List (JSNum α))
    (amplitudeThreshold : JSNum α) (hlen : frequencies.length = amplitudes.length)
    (a : JSNum α) (ha : a ∈ amplitudes) (hnum : a ≠ nan) :
    ge (getAverageAndDominantFrequency frequencies amplitudes
      amplitudeThreshold).dominantFrequency.amplitude a = true := by
  have h := (averageLoop_amplitude amplitudeThreshold frequencies amplitudes
    ⟨fin 0, fin 1, ⟨fin 0, fin 0⟩⟩ hlen (by simp)).2.2 a ha hnum
  simpa [getAverageAndDominantFrequency] using h

/-- C5 (witness): three points, the largest amplitude in the middle. -/
theorem dominantFrequency_amplitude_ge_witness :
    ([fin 100, fin 200, fin 300] : List (JSNum ℚ)).length
      = ([fin 3, fin 70, fin 5] : List (JSNum ℚ)).length ∧
    (fin 5 : JSNum ℚ) ∈ ([fin 3, fin 70, fin 5] : List (JSNum ℚ)) ∧
    (fin 5 : JSNum ℚ) ≠ nan ∧
    ge (getAverageAndDominantFrequency [fin 100, fin 200, fin 300] [fin 3, fin 70, fin 5]
      (fin (50 : ℚ))).dominantFrequency.amplitude (fin 5) = true :=
  ⟨rfl, by simp, (by intro h; cases h),
    dominantFrequency_amplitude_ge [fin 100, fin 200, fin 300] [fin 3, fin 70, fin 5]
      (fin (50 : ℚ)) rfl (fin 5) (by simp) (by intro h; cases h)⟩

/-! ### `findClosestNote` at 0 and at 440 -/

/-- C6: `findClosestNote(0)` is the sentinel "A0" and `findClosestNote(440)` is "A4", whatever
the implementation of `Math.log2` (ECMAScript fixes `Math.log2(1)` to 0). -/
theorem findClosestNote_zero_and_A4 (M : MathLib α) :
    findClosestNote M (fin 0) = "A0" ∧ findClosestNote M (fin 440) = "A4" := by
  have h440 : (440 : α) ≠ 0 := by norm_num
  have h10 : ¬ ((1 : α) < 0) := by norm_num
  have h94 : ¬ ((9 : α) < 0) := by norm_num
  have hfloor : ⌊(2 : α)⁻¹⌋ = 0 := by rw [Int.floor_eq_iff]; norm_num
  have h912 : ⌊(9 / 12 : α)⌋ = 0 := by rw [Int.floor_eq_iff]; norm_num
  have htrunc : trunc (9 / 12 : α) = 0 := by
    have : (0 : α) ≤ 9 / 12 := by norm_num
    simp [trunc, this, h912]
  have h9 : ⌊(9 : α)⌋ = 9 := by rw [Int.floor_eq_iff]; norm_num
  have h4 : ⌊(4 : α)⌋ = 4 := by rw [Int.floor_eq_iff]; norm_num
  have h421 : (4 : α) < 10 ^ 21 := by norm_num
  constructor
  · simp [findClosestNote]
  · simp [findClosestNote, h440, h10, h94, hfloor, h912, htrunc, noteNameAt, h9, toStr, h4,
      h421, noteNames]
    rfl

/-! ### `calculateMultiplier` with a bin count of 0 -/

/-- C7 (amended): for every frame size for which `1024 / frameSize` is finite (every frame
size other than 0 and `NaN`) and every finite adjustment constant `k`,
`calculateMultiplier(frameSize, 0, k)` is 0. -/
theorem calculateMultiplier_zero_bins (M : MathLib α) (frameSize : JSNum α) (q k : α)
    (hq : fin 1024 / frameSize = fin q) :
    calculateMultiplier M frameSize (fin 0) (fin k) = fin 0 := by
  simp only [calculateMultiplier, hq]
  simp

/-- C7 (witness): frame size 2048 and adjustment 3. -/
theorem calculateMultiplier_zero_bins_witness :
    (fin 1024 / fin 2048 : JSNum ℚ) = fin (1 / 2) ∧
    calculateMultiplier testMath (fin 2048) (fin 0) (fin 3) = fin 0 :=
  have hq : (fin 1024 / fin 2048 : JSNum ℚ) = fin (1 / 2) := by
    simp
    norm_num
  ⟨hq, calculateMultiplier_zero_bins testMath (fin 2048) (1 / 2) 3 hq⟩

/-- The quotient `1024 / frameSize` is finite for every frame size other than 0 and `NaN`. -/
theorem multiplier1_finite (frameSize : JSNum α) (hnan : frameSize ≠ nan)
    (hzero : frameSize ≠ fin 0) : ∃ q : α, fin 1024 / frameSize = fin q := by
  cases frameSize with
  | nan => exact absurd rfl hnan
  | negInf => exact ⟨0, by simp⟩
  | posInf => exact ⟨0, by simp⟩
  | fin x =>
    have hx : x ≠ 0 := fun h => hzero (by rw [h])
    exact ⟨1024 / x, by simp [hx]⟩

/-- C7 (counterexample): with frame size 0 the first factor is `1024 / 0 = Infinity`, and
`Infinity * 0` is `NaN`, which is not 0. -/
theorem calculateMultiplier_zero_frameSize :
    calculateMultiplier testMath (fin 0) (fin 0) (fin 1) = nan ∧
    strictEq (calculateMultiplier testMath (fin 0) (fin 0) (fin 1)) (fin 0) = false := by
  have h : calculateMultiplier testMath (fin 0) (fin 0) (fin 1) = nan := by
    simp [calculateMultiplier, infTimes]
  rw [h]
  exact ⟨rfl, rfl⟩

/-! ### The adapter sends its stored subscription again on every `open` -/

theorem subscribeMessage_ne_empty (sampleRate frameSize audioDeviceID : String) :
    subscribeMessage sampleRate frameSize audioDeviceID ≠ "" := by
  have h : (subscribeMessage sampleRate frameSize audioDeviceID).length ≠ 0 := by
    simp only [subscribeMessage, String.length_append]
    have : 0 < ("\x7b\"type\":\"subscribe\",\"data\":\x7b\"sampleRate\":").length := by
      decide
    omega
  intro h0
  rw [h0] at h
  exact h rfl

theorem step_subscribe_kept (self : AudioAdapter) (event : AdapterEvent)
    (h : event.isPress = false) :
    (self.step event).subscribeToAudioStream = self.subscribeToAudioStream := by
  cases event with
  | opened =>
    simp only [AudioAdapter.step, AudioAdapter.onOpen, AudioAdapter.send]
    split
    · split <;> simp_all
    · simp_all
  | closed =>
    simp only [AudioAdapter.step, AudioAdapter.onClose, AudioAdapter.reconnect]
    split <;> rfl
  | errored => rfl
  | message msg => rfl
  | timer =>
    simp only [AudioAdapter.step, AudioAdapter.onTimer, AudioAdapter.connect]
    split <;> rfl
  | encoderPress a b c => simp [AdapterEvent.isPress] at h

theorem run_subscribe_kept (events : List AdapterEvent) (self : AudioAdapter)
    (h : ∀ event ∈ events, event.isPress = false) :
    (self.run events).subscribeToAudioStream = self.subscribeToAudioStream := by
  induction events generalizing self with
  | nil => rfl
  | cons e es ih =>
    simp only [AudioAdapter.run, List.foldl_cons]
    have := ih (self.step e) (fun e' he' => h e' (List.mem_cons_of_mem _ he'))
    simp only [AudioAdapter.run] at this
    rw [this, step_subscribe_kept self e (h e (List.mem_cons_self _ _))]

theorem onOpen_sent (self : AudioAdapter) (text : String)
    (h : self.subscribeToAudioStream = some text) (ht : text ≠ "") :
    self.onOpen.sent = self.sent ++ [(self.ws, getDevicesMessage), (self.ws, text)] := by
  simp [AudioAdapter.onOpen, AudioAdapter.send, h, ht]

/-- C8: once `onEncoderPress` has stored a subscribe payload, then after any events that are not
another run of `onEncoderPress` (closes, errors, reconnect timers, opens, messages) an `open`
event sends, on the socket that is then `this.ws`, the `getDevices` request followed by exactly
the stored payload. -/
theorem AudioAdapter_resends_subscription (adapter : AudioAdapter)
    (sampleRate frameSize audioDeviceID : String) (events : List AdapterEvent)
    (hno : ∀ event ∈ events, event.isPress = false) :
    (((adapter.onEncoderPress sampleRate frameSize audioDeviceID).run events).step .opened).sent
      = ((adapter.onEncoderPress sampleRate frameSize audioDeviceID).run events).sent
        ++ [(((adapter.onEncoderPress sampleRate frameSize audioDeviceID).run events).ws,
              getDevicesMessage),
            (((adapter.onEncoderPress sampleRate frameSize audioDeviceID).run events).ws,
              subscribeMessage sampleRate frameSize audioDeviceID)] := by
  have hkept := run_subscribe_kept events
    (adapter.onEncoderPress sampleRate frameSize audioDeviceID) hno
  have hstored : (adapter.onEncoderPress sampleRate frameSize
      audioDeviceID).subscribeToAudioStream
      = some (subscribeMessage sampleRate frameSize audioDeviceID) := rfl
  rw [hstored] at hkept
  exact onOpen_sent _ _ hkept (subscribeMessage_ne_empty _ _ _)

/-- C8 (witness): the adapter connects on socket 1, a device is chosen, the connection closes,
the timer of `#reconnect` creates socket 2, and its `open` sends the payload stored before the
close. -/
theorem AudioAdapter_resends_subscription_witness :
    (∀ event ∈ [AdapterEvent.closed, AdapterEvent.timer], event.isPress = false) ∧
    ((AudioAdapter.new.onOpen.onEncoderPress "44100" "2048" "5").run [.closed, .timer]).ws
      = 2 ∧
    (((AudioAdapter.new.onOpen.onEncoderPress "44100" "2048" "5").run
        [.closed, .timer]).step .opened).sent
      = ((AudioAdapter.new.onOpen.onEncoderPress "44100" "2048" "5").run [.closed, .timer]).sent
        ++ [(((AudioAdapter.new.onOpen.onEncoderPress "44100" "2048" "5").run
                [.closed, .timer]).ws, getDevicesMessage),
            (((AudioAdapter.new.onOpen.onEncoderPress "44100" "2048" "5").run
                [.closed, .timer]).ws, subscribeMessage "44100" "2048" "5")] :=
  ⟨by decide, by decide,
    AudioAdapter_resends_subscription AudioAdapter.new.onOpen "44100" "2048" "5"
      [.closed, .timer] (by decide)⟩

/-! ### The normalised samples of `audioToWS_Stream` -/

/-- C9: on the frame of the two bytes `00 80`, the sample -32768, the value `audioToWS_Stream`
feeds to the FFT and to `calculateDB` is `-32768 / 32767`, which is below -1; on the frame
`FF 7F`, the sample 32767, it is 1. -/
theorem audioToWS_Stream_data_below_minus_one :
    audioToWS_Stream_data ℚ [0, 128] = .ok [fin (-32768 / 32767)] ∧
    ge (fin (-32768 / 32767 : ℚ)) (fin (-1)) = false ∧
    audioToWS_Stream_data ℚ [255, 127] = .ok [fin 1] := by
  have h1 : audioToWS_Stream_data ℚ [0, 128] = .ok [fin ((-32768 : ℤ) : ℚ) / fin 32767] := rfl
  have h2 : audioToWS_Stream_data ℚ [255, 127] = .ok [fin ((32767 : ℤ) : ℚ) / fin 32767] := rfl
  rw [h1, h2]
  refine ⟨?_, ?_, ?_⟩
  · simp
  · simp
    norm_num
  · simp

/-- Every sample `readInt16LE` returns is a signed 16-bit integer. -/
theorem readInt16LE_range (buffer : List Nat) (offset : Nat) (sample : Int)
    (h : readInt16LE buffer offset = .ok sample) : -32768 ≤ sample ∧ sample ≤ 32767 := by
  unfold readInt16LE at h
  split at h
  · rename_i lo hi _ _
    simp only [Except.ok.injEq] at h
    have h1 : lo % 256 < 256 := Nat.mod_lt _ (by norm_num)
    have h2 : hi % 256 < 256 := Nat.mod_lt _ (by norm_num)
    split at h <;> omega
  · cases h

/-- A signed 16-bit sample divided by 32767 lies in `[-1, 1]` exactly when it is not -32768. -/
theorem normalized_in_unit_interval_iff (sample : Int) (hlo : -32768 ≤ sample)
    (hhi : sample ≤ 32767) :
    (le (fin (-1)) (fin (sample : α) / fin 32767) = true ∧
      le (fin (sample : α) / fin 32767) (fin 1) = true) ↔ sample ≠ -32768 := by
  have h0 : (32767 : α) ≠ 0 := by norm_num
  have hpos : (0 : α) < 32767 := by norm_num
  simp only [div_def, div_eq_13, if_neg h0, le_eq_6, decide_eq_true_eq]
  rw [le_div_iff₀ hpos, div_le_iff₀ hpos]
  constructor
  · rintro ⟨h1, _⟩ rfl
    norm_num at h1
  · intro hne
    have h1 : -32767 ≤ sample := by omega
    constructor
    · have : ((-32767 : ℤ) : α) ≤ (sample : α) := by exact_mod_cast h1
      simpa using this
    · have : (sample : α) ≤ ((32767 : ℤ) : α) := by exact_mod_cast hhi
      simpa using this

/-! ### Binning with `minFreq <= 0` -/

theorem log10_of_le_zero (M : MathLib α) (minFreq : JSNum α) (h : le minFreq (fin 0) = true) :
    log10 M minFreq = nan ∨ log10 M minFreq = negInf := by
  cases minFreq with
  | nan => simp at h
  | negInf => simp
  | posInf => simp at h
  | fin x =>
    have hx : x ≤ 0 := by simpa using h
    rcases hx.lt_or_eq with hx | hx
    · simp [hx]
    · simp [hx]

theorem binIndex_nan (x y m numBins : JSNum α) (hm : m = nan ∨ m = negInf) :
    floor ((x - m) / ((y - m) / numBins)) = nan := by
  rcases hm with rfl | rfl <;> cases x <;> cases y <;> cases numBins <;> simp <;>
    split_ifs <;> simp

theorem binStep_of_le_zero (M : MathLib α) (minFreq maxFreq maxLog numBins aggregationFactor
    adjustedNumBins : JSNum α) (bins : List (JSNum α)) (frequency amplitude : JSNum α)
    (h : le minFreq (fin 0) = true) :
    binStep M minFreq maxFreq (log10 M minFreq) ((maxLog - log10 M minFreq) / numBins)
      aggregationFactor adjustedNumBins bins frequency amplitude = bins := by
  unfold binStep
  split
  · rfl
  · dsimp only
    rw [binIndex_nan _ _ _ _ (log10_of_le_zero M minFreq h)]
    simp

theorem binLoop_of_le_zero (M : MathLib α) (minFreq maxFreq maxLog numBins aggregationFactor
    adjustedNumBins : JSNum α) (frequencies amplitudes bins : List (JSNum α))
    (h : le minFreq (fin 0) = true) :
    binLoop M minFreq maxFreq (log10 M minFreq) ((maxLog - log10 M minFreq) / numBins)
      aggregationFactor adjustedNumBins frequencies amplitudes bins = bins := by
  induction frequencies generalizing amplitudes bins with
  | nil => rfl
  | cons f fs ih => rw [binLoop, binStep_of_le_zero _ _ _ _ _ _ _ _ _ _ h, ih]

theorem range_bounds_nan (M : MathLib α) (x : α) (hx : 0 ≤ x) (y m : JSNum α) (index : Nat)
    (hm : m = nan ∨ m = negInf) :
    pow10 M (ofNat index * ((y - m) / fin x) + m) = nan ∧
    pow10 M ((ofNat index + fin 1) * ((y - m) / fin x) + m) = nan := by
  have h1 : (index : α) + 1 ≠ 0 := by positivity
  have h2 : (0 : α) < index + 1 := by positivity
  rcases hm with rfl | rfl <;> cases y <;> simp [hx, infTimes, h1, h2] <;>
    split_ifs <;> first | omega | simp

theorem BinsfrequencyRanges_of_le_zero (M : MathLib α) (numBins minFreq maxFreq : JSNum α)
    (hmin : le minFreq (fin 0) = true) (n : Nat) (hn : newArray numBins = .ok n) :
    BinsfrequencyRanges M numBins minFreq maxFreq = .ok (List.replicate n (nan, nan)) := by
  cases numBins with
  | nan => simp [newArray] at hn
  | negInf => simp [newArray] at hn
  | posInf => simp [newArray] at hn
  | fin x =>
    have hx : 0 ≤ x := by
      by_contra hx
      simp [newArray, hx] at hn
    have hm := log10_of_le_zero M minFreq hmin
    simp only [BinsfrequencyRanges, hn]
    have : ∀ index : Nat,
        (pow10 M (ofNat index * ((log10 M maxFreq - log10 M minFreq) / fin x)
            + log10 M minFreq),
          pow10 M ((ofNat index + fin 1) * ((log10 M maxFreq - log10 M minFreq) / fin x)
            + log10 M minFreq)) = ((nan, nan) : JSNum α × JSNum α) := by
      intro index
      obtain ⟨h1, h2⟩ := range_bounds_nan M x hx (log10 M maxFreq) (log10 M minFreq) index hm
      rw [h1, h2]
    simp only [this]
    show Except.ok _ = Except.ok _
    congr 1
    rw [List.eq_replicate_iff]
    simp

theorem Binsamplitudes_of_le_zero (M : MathLib α) (frequencies amplitudes : List (JSNum α))
    (numBins minFreq maxFreq aggregationFactor : JSNum α)
    (hmin : le minFreq (fin 0) = true) (n : Nat)
    (hn : newArray (ceil (numBins / aggregationFactor)) = .ok n) :
    Binsamplitudes M frequencies amplitudes numBins minFreq maxFreq aggregationFactor
      = .ok (List.replicate n (fin 0)) := by
  simp only [Binsamplitudes, hn]
  show Except.ok _ = Except.ok _
  rw [binLoop_of_le_zero _ _ _ _ _ _ _ _ _ _ hmin]

/-- C10 (amended): nothing validates `minFreq`. For every input with `minFreq <= 0`, when the
bin count is a valid array length `BinsfrequencyRanges` returns that many ranges, all of whose
bounds are `NaN`, and when `ceil(numBins / aggregationFactor)` is a valid array length
`Binsamplitudes` returns that many amplitudes, all 0; neither fails because of `minFreq`. -/
theorem binning_of_minFreq_le_zero (M : MathLib α) (frequencies amplitudes : List (JSNum α))
    (numBins minFreq maxFreq aggregationFactor : JSNum α)
    (hmin : le minFreq (fin 0) = true) :
    (∀ n, newArray numBins = .ok n →
      BinsfrequencyRanges M numBins minFreq maxFreq = .ok (List.replicate n (nan, nan))) ∧
    (∀ n, newArray (ceil (numBins / aggregationFactor)) = .ok n →
      Binsamplitudes M frequencies amplitudes numBins minFreq maxFreq aggregationFactor
        = .ok (List.replicate n (fin 0))) :=
  ⟨BinsfrequencyRanges_of_le_zero M numBins minFreq maxFreq hmin,
    Binsamplitudes_of_le_zero M frequencies amplitudes numBins minFreq maxFreq
      aggregationFactor hmin⟩

/-- C10 (witness): four bins with `minFreq = -5`. -/
theorem binning_of_minFreq_le_zero_witness :
    le (fin (-5) : JSNum ℚ) (fin 0) = true ∧
    (∀ n, newArray (fin 4 : JSNum ℚ) = .ok n →
      BinsfrequencyRanges testMath (fin 4) (fin (-5)) (fin 20000)
        = .ok (List.replicate n (nan, nan))) ∧
    (∀ n, newArray (ceil (fin 4 / fin 1 : JSNum ℚ)) = .ok n →
      Binsamplitudes testMath [fin 100, fin 200] [fin 3, fin 5] (fin 4) (fin (-5)) (fin 20000)
        (fin 1) = .ok (List.replicate n (fin 0))) :=
  ⟨by simp, binning_of_minFreq_le_zero testMath [fin 100, fin 200] [fin 3, fin 5] (fin 4)
    (fin (-5)) (fin 20000) (fin 1) (by simp)⟩

theorem newArray_four : newArray (fin 4 : JSNum ℚ) = .ok 4 := by
  have h : newArray (fin ((4 : Nat) : ℚ)) = .ok 4 := newArray_ofNat 4 (by norm_num)
  simpa using h

/-- C10 (counterexample): with `minFreq = 0` both functions return a result instead of failing:
four ranges with `NaN` bounds, and four amplitudes 0. -/
theorem binning_minFreq_zero_returns :
    BinsfrequencyRanges testMath (fin 4) (fin 0) (fin 20000)
      = .ok [(nan, nan), (nan, nan), (nan, nan), (nan, nan)] ∧
    Binsamplitudes testMath [fin 100, fin 200] [fin 3, fin 5] (fin 4) (fin 0) (fin 20000)
      (fin 1) = .ok [fin 0, fin 0, fin 0, fin 0] := by
  constructor
  · exact BinsfrequencyRanges_of_le_zero testMath (fin 4) (fin 0) (fin 20000) (by simp) 4
      newArray_four
  · refine Binsamplitudes_of_le_zero testMath _ _ (fin 4) (fin 0) (fin 20000) (fin 1) (by simp) 4
      ?_
    have h : (fin 4 / fin 1 : JSNum ℚ) = fin 4 := by simp
    rw [h]
    have h4 : ceil (fin 4 : JSNum ℚ) = fin 4 := by
      have : ⌈(4 : ℚ)⌉ = 4 := by rw [Int.ceil_eq_iff]; norm_num
      simp [this]
    rw [h4]
    exact newArray_four

/-! ### Binning with `numBins <= 0` -/

theorem binLoop_nil (M : MathLib α) (minFreq maxFreq minLog binSize aggregationFactor
    adjustedNumBins : JSNum α) (frequencies amplitudes : List (JSNum α)) :
    binLoop M minFreq maxFreq minLog binSize aggregationFactor adjustedNumBins frequencies
      amplitudes [] = [] :=
  List.eq_nil_of_length_eq_zero (by rw [binLoop_length]; rfl)

theorem newArray_zero : newArray (fin (0 : α)) = .ok 0 := by
  simp [newArray]

theorem BinsfrequencyRanges_zero_bins (M : MathLib α) (minFreq maxFreq : JSNum α) :
    BinsfrequencyRanges M (fin 0) minFreq maxFreq = .ok [] := by
  simp only [BinsfrequencyRanges, newArray_zero]
  rfl

theorem Binsamplitudes_ceil_zero (M : MathLib α) (frequencies amplitudes : List (JSNum α))
    (numBins minFreq maxFreq aggregationFactor : JSNum α)
    (h : ceil (numBins / aggregationFactor) = fin 0) :
    Binsamplitudes M frequencies amplitudes numBins minFreq maxFreq aggregationFactor
      = .ok [] := by
  simp only [Binsamplitudes, h, newArray_zero]
  show Except.ok _ = Except.ok _
  rw [List.replicate_zero, binLoop_nil]

/-- C11 (amended): nothing validates `numBins` and no `InvalidConfigError` exists. For every
input with `numBins <= 0`: `BinsfrequencyRanges` returns the empty sequence when `numBins` is 0
and otherwise fails with the `RangeError` of `new Array`; `Binsamplitudes`, with a positive
finite aggregation factor `y`, returns the empty sequence when `-y < numBins` and otherwise
fails with that `RangeError`. -/
theorem binning_of_numBins_le_zero (M : MathLib α) (frequencies amplitudes : List (JSNum α))
    (numBins minFreq maxFreq : JSNum α) (y : α) (hy : 0 < y)
    (hbins : le numBins (fin 0) = true) :
    BinsfrequencyRanges M numBins minFreq maxFreq
      = (if numBins = fin 0 then .ok [] else .error .rangeError) ∧
    Binsamplitudes M frequencies amplitudes numBins minFreq maxFreq (fin y)
      = (if lt (fin (-y)) numBins then .ok [] else .error .rangeError) := by
  cases numBins with
  | nan => simp at hbins
  | posInf => simp at hbins
  | negInf =>
    constructor
    · simp [BinsfrequencyRanges, newArray]
    · simp [Binsamplitudes, newArray, hy.le]
  | fin x =>
    have hx : x ≤ 0 := by simpa using hbins
    constructor
    · by_cases h0 : x = 0
      · subst h0
        simp [BinsfrequencyRanges_zero_bins]
      · have hneg : ¬ 0 ≤ x := fun h => h0 (le_antisymm hx h)
        simp [BinsfrequencyRanges, newArray, hneg, h0]
    · have hq : fin x / fin y = fin (x / y) := by simp [hy.ne']
      have hle : x / y ≤ 0 := div_nonpos_of_nonpos_of_nonneg hx hy.le
      by_cases hlt : -y < x
      · have hc : ⌈x / y⌉ = 0 := by
          rw [Int.ceil_eq_iff]
          constructor
          · have : -1 < x / y := by rw [lt_div_iff₀ hy]; linarith
            simpa using this
          · simpa using hle
        have : ceil (fin x / fin y) = fin 0 := by rw [hq]; simp [hc]
        rw [Binsamplitudes_ceil_zero M _ _ _ _ _ _ this]
        simp [hlt]
      · have hc : ⌈x / y⌉ < 0 := by
          have : x / y ≤ -1 := by rw [div_le_iff₀ hy]; linarith
          have h1 : ⌈x / y⌉ ≤ -1 := Int.ceil_le.mpr (by simpa using this)
          omega
        have hneg : ¬ (0 : α) ≤ ((⌈x / y⌉ : ℤ) : α) := by
          have : ((⌈x / y⌉ : ℤ) : α) < 0 := by exact_mod_cast hc
          exact not_le.mpr this
        simp only [Binsamplitudes, hq]
        simp [newArray, hneg, hlt]

/-- C11 (witness): bin count -3 with aggregation factor 1. -/
theorem binning_of_numBins_le_zero_witness :
    (0 : ℚ) < 1 ∧ le (fin (-3) : JSNum ℚ) (fin 0) = true ∧
    BinsfrequencyRanges testMath (fin (-3)) (fin 20) (fin 20000)
      = (if (fin (-3) : JSNum ℚ) = fin 0 then .ok [] else .error .rangeError) ∧
    Binsamplitudes testMath [fin 100, fin 200] [fin 3, fin 5] (fin (-3)) (fin 20) (fin 20000)
      (fin 1) = (if lt (fin (-1)) (fin (-3) : JSNum ℚ) then .ok [] else .error .rangeError) :=
  ⟨by norm_num, by simp,
    binning_of_numBins_le_zero testMath [fin 100, fin 200] [fin 3, fin 5] (fin (-3)) (fin 20)
      (fin 20000) 1 (by norm_num) (by simp)⟩

/-- C11 (counterexample): with `numBins = 0` both functions return the empty sequence instead
of failing. -/
theorem binning_zero_bins_returns :
    BinsfrequencyRanges testMath (fin 0) (fin 20) (fin 20000) = .ok [] ∧
    Binsamplitudes testMath [fin 100, fin 200] [fin 3, fin 5] (fin 0) (fin 20) (fin 20000)
      (fin 1) = .ok [] := by
  refine ⟨BinsfrequencyRanges_zero_bins _ _ _, Binsamplitudes_ceil_zero _ _ _ _ _ _ _ ?_⟩
  have h : ⌈(0 : ℚ)⌉ = 0 := Int.ceil_zero
  simp

/-! ### `calculateDB` at 0 dB -/

theorem foldl_squares_one (n : Nat) (c : α) :
    (List.replicate n (fin (1 : α))).foldl (fun rms a => rms + a * a) (fin c)
      = fin (c + n) := by
  induction n generalizing c with
  | zero => simp
  | succ n ih =>
    rw [List.replicate_succ, List.foldl_cons]
    have : (fin c + fin 1 * fin 1 : JSNum α) = fin (c + 1) := by simp
    rw [this, ih]
    push_cast
    ring_nf

/-- C12: on a frame whose samples are all 1 (full scale) the root mean square is 1 and
`20 * log10(1)` is 0, but `calculateDB` returns -1000: 0 is falsy, so `db || -1000` replaces
it by the sentinel. -/
theorem calculateDB_full_scale (M : MathLib α) (hsqrt : M.sqrt 1 = 1) (n : Nat) :
    calculateDB M (List.replicate (n + 1) (fin 1)) = fin (-1000) ∧
    fin 20 * log10 M (sqrt M (fin 1)) = fin 0 := by
  have h1 : ((n : α) + 1) ≠ 0 := by positivity
  have h10 : ¬ ((1 : α) < 0) := by norm_num
  constructor
  · simp only [calculateDB, foldl_squares_one, List.length_replicate]
    simp [h1, h10, hsqrt, JSNum.or]
  · simp [h10, hsqrt]

/-- C12 (witness): one sample equal to 1, with a square root that is exact at 1. -/
theorem calculateDB_full_scale_witness :
    testMath.sqrt 1 = 1 ∧
    calculateDB testMath (List.replicate (0 + 1) (fin 1)) = fin (-1000) ∧
    fin 20 * log10 testMath (sqrt testMath (fin 1)) = fin 0 :=
  ⟨rfl, calculateDB_full_scale testMath rfl 0⟩

/-! ### Detaching a session twice -/

/-- C18: a session's listener is registered once, so the registry has no duplicates; then the
second removal of a session's `streamingListener` (`close` after `error`, or the reverse)
changes nothing, and a removal keeps every other session's listener, as often as it was
registered. The model is total: no removal raises a fault. -/
theorem relay_detach_idempotent {Frame : Type} (st : RelayState Frame) (session : Nat)
    (hnodup : st.listeners.Nodup) :
    (st.onClose session).onError session = st.onClose session ∧
    (st.onError session).onClose session = st.onError session ∧
    (st.onClose session).onClose session = st.onClose session ∧
    (st.onError session).onError session = st.onError session ∧
    ∀ other, other ≠ session →
      (st.onClose session).listeners.count other = st.listeners.count other ∧
      (st.onError session).listeners.count other = st.listeners.count other := by
  have h : (st.listeners.erase session).erase session = st.listeners.erase session :=
    List.erase_of_not_mem (hnodup.not_mem_erase)
  refine ⟨?_, ?_, ?_, ?_, ?_⟩
  · simp [RelayState.onClose, RelayState.onError, h]
  · simp [RelayState.onClose, RelayState.onError, h]
  · simp [RelayState.onClose, h]
  · simp [RelayState.onError, h]
  · intro other hne
    simp [RelayState.onClose, RelayState.onError, List.count_erase_of_ne hne]

/-- C18 (witness): two sessions attached; session 1 closes and then errors. -/
theorem relay_detach_idempotent_witness :
    ((RelayState.init Nat).run [.connect 1, .connect 2, .subscribe 1]).listeners.Nodup ∧
    ((((RelayState.init Nat).run [.connect 1, .connect 2, .subscribe 1]).onClose 1).onError 1
      = ((RelayState.init Nat).run [.connect 1, .connect 2, .subscribe 1]).onClose 1) ∧
    (((RelayState.init Nat).run [.connect 1, .connect 2, .subscribe 1]).onClose 1).listeners
      = [2] :=
  ⟨by decide,
    (relay_detach_idempotent ((RelayState.init Nat).run [.connect 1, .connect 2, .subscribe 1])
      1 (by decide)).1,
    by decide⟩

/-! ### `getBassAmplitude`: the sum over the bass range -/

theorem bassLoop_fin (low high : JSNum α) (frequencies : List (JSNum α)) (amplitudes : List α)
    (c : α) (hlen : frequencies.length = amplitudes.length) :
    bassLoop low high frequencies (amplitudes.map fin) (fin c)
      = fin (c + (((frequencies.zip amplitudes).filter
          fun p => ge p.1 low && le p.1 high).map fun p => p.2 * (5 / 2)).sum) := by
  induction frequencies generalizing amplitudes c with
  | nil => simp [bassLoop]
  | cons f fs ih =>
    cases amplitudes with
    | nil => simp at hlen
    | cons a as =>
      have hlen' : fs.length = as.length := by simpa using hlen
      simp only [bassLoop, List.map_cons, List.headD_cons, List.tail_cons, List.zip_cons_cons]
      by_cases h : (ge f low && le f high) = true
      · have hs : bassStep low high (fin c) f (fin a) = fin (c + a * (5 / 2)) := by
          simp only [bassStep, h, if_true]
          simp
        rw [hs, ih as _ hlen', List.filter_cons_of_pos (by simpa using h)]
        simp [add_assoc]
      · have hs : bassStep low high (fin c) f (fin a) = fin c := by
          simp only [bassStep, h]
          simp
        rw [hs, ih as _ hlen', List.filter_cons_of_neg (by simpa using h)]

/-- C16: for frequency and amplitude sequences of equal length and every bass range,
`getBassAmplitude` returns the sum of `2.5 * amplitude` over exactly the points whose frequency
`f` satisfies `parseInt(lo) <= f <= parseInt(hi)`, and 0 when no point is in the range. -/
theorem getBassAmplitude_sum (frequencies : List (JSNum α)) (amplitudes : List α)
    (bassFrequencyRange : List String) (hlen : frequencies.length = amplitudes.length) :
    getBassAmplitude frequencies (amplitudes.map fin) bassFrequencyRange
      = fin ((((frequencies.zip amplitudes).filter fun p =>
          ge p.1 (parseInt10 (bassFrequencyRange.getD 0 "undefined")) &&
          le p.1 (parseInt10 (bassFrequencyRange.getD 1 "undefined"))).map
            fun p => p.2 * (5 / 2)).sum) ∧
    ((∀ f ∈ frequencies,
        (ge f (parseInt10 (bassFrequencyRange.getD 0 "undefined")) &&
          le f (parseInt10 (bassFrequencyRange.getD 1 "undefined"))) = false) →
      getBassAmplitude frequencies (amplitudes.map fin) bassFrequencyRange = fin 0) := by
  have h := bassLoop_fin (parseInt10 (bassFrequencyRange.getD 0 "undefined"))
    (parseInt10 (bassFrequencyRange.getD 1 "undefined")) frequencies amplitudes 0 hlen
  rw [zero_add] at h
  refine ⟨h, fun hnone => ?_⟩
  rw [getBassAmplitude, h]
  have hnil : ((frequencies.zip amplitudes).filter fun p =>
      ge p.1 (parseInt10 (bassFrequencyRange.getD 0 "undefined")) &&
      le p.1 (parseInt10 (bassFrequencyRange.getD 1 "undefined"))) = [] := by
    rw [List.filter_eq_nil_iff]
    intro p hp
    have := hnone p.1 (List.of_mem_zip hp).1
    simpa using this
  rw [hnil]
  simp

/-- C16 (witness): five points and the range from "20" to "250": the three points at 20, 100 and
250 Hz count, and `2.5 * (2 + 4 + 8)` is 35. -/
theorem getBassAmplitude_sum_witness :
    ([fin 10, fin 20, fin 100, fin 250, fin 251] : List (JSNum ℚ)).length
      = ([1, 2, 4, 8, 16] : List ℚ).length ∧
    getBassAmplitude [fin 10, fin 20, fin 100, fin 250, fin 251]
      (([1, 2, 4, 8, 16] : List ℚ).map fin) ["20", "250"] = fin 35 := by
  refine ⟨rfl, ?_⟩
  rw [(getBassAmplitude_sum [fin 10, fin 20, fin 100, fin 250, fin 251]
    ([1, 2, 4, 8, 16] : List ℚ) ["20", "250"] rfl).1]
  have h20 : (parseInt10 "20" : JSNum ℚ) = fin 20 := by
    simp [parseInt10, isStrWhiteSpaceChar, isDecimalDigit]
  have h250 : (parseInt10 "250" : JSNum ℚ) = fin 250 := by
    simp [parseInt10, isStrWhiteSpaceChar, isDecimalDigit]
  simp only [List.getD_cons_zero, List.getD_cons_succ, h20, h250]
  simp [List.filter_cons]
  norm_num

/-! ### `getAverageAndDominantFrequency`: the weighted average -/

theorem averageLoop_totals (t : α) (frequencies amplitudes : List α) (st : AverageState α)
    (tf ta : α) (htf : st.totalFrequency = fin tf) (hta : st.totalAmplitude = fin ta)
    (hlen : frequencies.length = amplitudes.length) :
    (averageLoop (fin t) (frequencies.map fin) (amplitudes.map fin) st).totalFrequency
      = fin (tf + (((frequencies.zip amplitudes).filter fun p => t < p.2).map
          fun p => p.1 * p.2).sum) ∧
    (averageLoop (fin t) (frequencies.map fin) (amplitudes.map fin) st).totalAmplitude
      = fin (ta + (((frequencies.zip amplitudes).filter fun p => t < p.2).map
          Prod.snd).sum) := by
  induction frequencies generalizing amplitudes st tf ta with
  | nil => simp [averageLoop, htf, hta]
  | cons f fs ih =>
    cases amplitudes with
    | nil => simp at hlen
    | cons a as =>
      have hlen' : fs.length = as.length := by simpa using hlen
      simp only [averageLoop, List.map_cons, List.headD_cons, List.tail_cons,
        List.zip_cons_cons]
      by_cases h : t < a
      · have hle : le (fin a) (fin t) = false := by simpa using h
        have h1 : (averageStep (fin t) st (fin f) (fin a)).totalFrequency
            = fin (tf + f * a) := by
          simp only [averageStep, hle, htf]
          simp
        have h2 : (averageStep (fin t) st (fin f) (fin a)).totalAmplitude = fin (ta + a) := by
          simp only [averageStep, hle, hta]
          simp
        have := ih as _ _ _ h1 h2 hlen'
        rw [List.filter_cons_of_pos (by simpa using h)]
        simpa [add_assoc] using this
      · have hle : le (fin a) (fin t) = true := by simpa using not_lt.mp h
        have h1 : (averageStep (fin t) st (fin f) (fin a)).totalFrequency = fin tf := by
          simp only [averageStep, hle, htf]
          simp
        have h2 : (averageStep (fin t) st (fin f) (fin a)).totalAmplitude = fin ta := by
          simp only [averageStep, hle, hta]
          simp
        have := ih as _ _ _ h1 h2 hlen'
        rw [List.filter_cons_of_neg (by simpa using h)]
        exact this

theorem sum_nonneg_of_threshold (t : α) (ht : 0 ≤ t) (points : List (α × α)) :
    0 ≤ ((points.filter fun p => t < p.2).map Prod.snd).sum := by
  apply List.sum_nonneg
  intro x hx
  obtain ⟨p, hp, rfl⟩ := List.mem_map.mp hx
  have : t < p.2 := by simpa using (List.mem_filter.mp hp).2
  linarith

/-- C14: for finite frequencies and amplitudes of equal length and every threshold `t >= 0`,
`averageFrequency` is the sum of `f * a` over the points with `a > t` divided by 1 plus the sum
of `a` over those points; the points with `a <= t` are in neither sum, the denominator is at
least 1, so never zero, and the result is 0 when no point exceeds the threshold. (The amplitudes
need not be non-negative for this: those that count exceed `t`.) -/
theorem averageFrequency_formula (frequencies amplitudes : List α) (t : α)
    (hlen : frequencies.length = amplitudes.length) (ht : 0 ≤ t) :
    (getAverageAndDominantFrequency (frequencies.map fin) (amplitudes.map fin)
        (fin t)).averageFrequency
      = fin ((((frequencies.zip amplitudes).filter fun p => t < p.2).map
            fun p => p.1 * p.2).sum /
          (1 + (((frequencies.zip amplitudes).filter fun p => t < p.2).map Prod.snd).sum)) ∧
    1 ≤ 1 + (((frequencies.zip amplitudes).filter fun p => t < p.2).map Prod.snd).sum ∧
    ((∀ a ∈ amplitudes, a ≤ t) →
      (getAverageAndDominantFrequency (frequencies.map fin) (amplitudes.map fin)
        (fin t)).averageFrequency = fin 0) := by
  obtain ⟨h1, h2⟩ := averageLoop_totals t frequencies amplitudes
    ⟨fin 0, fin 1, ⟨fin 0, fin 0⟩⟩ 0 1 rfl rfl hlen
  have hnn := sum_nonneg_of_threshold t ht (frequencies.zip amplitudes)
  have hden : 1 + (((frequencies.zip amplitudes).filter fun p => t < p.2).map Prod.snd).sum
      ≠ 0 := by linarith
  have havg : (getAverageAndDominantFrequency (frequencies.map fin) (amplitudes.map fin)
        (fin t)).averageFrequency
      = fin ((((frequencies.zip amplitudes).filter fun p => t < p.2).map
            fun p => p.1 * p.2).sum /
          (1 + (((frequencies.zip amplitudes).filter fun p => t < p.2).map
            Prod.snd).sum)) := by
    simp only [getAverageAndDominantFrequency, h1, h2, zero_add]
    simp [hden]
  refine ⟨havg, by linarith, fun hnone => ?_⟩
  have hnil : ((frequencies.zip amplitudes).filter fun p => t < p.2) = [] := by
    rw [List.filter_eq_nil_iff]
    intro p hp
    have := hnone p.2 (List.of_mem_zip hp).2
    simpa using this
  rw [havg, hnil]
  simp

/-- C14 (witness): three points and threshold 50: the points with amplitudes 60 and 90 count,
and `(200 * 60 + 300 * 90) / (1 + 150)` is `39000 / 151`. -/
theorem averageFrequency_formula_witness :
    ([100, 200, 300] : List ℚ).length = ([10, 60, 90] : List ℚ).length ∧ (0 : ℚ) ≤ 50 ∧
    (getAverageAndDominantFrequency (([100, 200, 300] : List ℚ).map fin)
      (([10, 60, 90] : List ℚ).map fin) (fin 50)).averageFrequency = fin (39000 / 151) := by
  refine ⟨rfl, by norm_num, ?_⟩
  rw [(averageFrequency_formula ([100, 200, 300] : List ℚ) [10, 60, 90] 50 rfl
    (by norm_num)).1]
  simp [List.filter_cons]
  norm_num

/-! ### `getAverageAndDominantFrequency`: the first point of maximal amplitude -/

namespace JSNum

theorem lt_trans_eq_true {a b c : JSNum α} (hab : lt a b = true) (hbc : lt b c = true) :
    lt a c = true := by
  cases a <;> cases b <;> cases c <;> simp_all
  exact lt_trans hab hbc

theorem lt_of_le_of_lt_eq_true {a b c : JSNum α} (hab : le a b = true) (hbc : lt b c = true) :
    lt a c = true := by
  cases a <;> cases b <;> cases c <;> simp_all
  exact lt_of_le_of_lt hab hbc

theorem not_le_of_lt_eq_true {a b : JSNum α} (hab : lt a b = true) : le b a = false := by
  cases a <;> cases b <;> simp_all

end JSNum

theorem getD_mem_of_lt (l : List (JSNum α)) (k : Nat) (hk : k < l.length) :
    l.getD k nan ∈ l := by
  rw [List.getD_eq_getElem l nan hk]
  exact List.getElem_mem hk

theorem averageLoop_dominant_first (thr : JSNum α) (frequencies amplitudes : List (JSNum α))
    (st : AverageState α) (hlen : frequencies.length = amplitudes.length)
    (hnum : ∀ a ∈ amplitudes, a ≠ nan) (hst : st.dominantFrequency.amplitude ≠ nan) :
    ((averageLoop thr frequencies amplitudes st).dominantFrequency = st.dominantFrequency ∧
      ∀ a ∈ amplitudes, le a st.dominantFrequency.amplitude = true) ∨
    ∃ i, i < amplitudes.length ∧
      (averageLoop thr frequencies amplitudes st).dominantFrequency
        = ⟨frequencies.getD i nan, amplitudes.getD i nan⟩ ∧
      lt st.dominantFrequency.amplitude (amplitudes.getD i nan) = true ∧
      (∀ j, j < amplitudes.length →
        le (amplitudes.getD j nan) (amplitudes.getD i nan) = true) ∧
      (∀ j, j < i → lt (amplitudes.getD j nan) (amplitudes.getD i nan) = true) := by
  induction frequencies generalizing amplitudes st with
  | nil =>
    cases amplitudes with
    | nil => exact Or.inl ⟨rfl, by simp⟩
    | cons a as => simp at hlen
  | cons f fs ih =>
    cases amplitudes with
    | nil => simp at hlen
    | cons a as =>
      have hlen' : fs.length = as.length := by simpa using hlen
      have ha : a ≠ nan := hnum a (List.mem_cons_self _ _)
      have hnum' : ∀ b ∈ as, b ≠ nan := fun b hb => hnum b (List.mem_cons_of_mem _ hb)
      simp only [averageLoop, List.headD_cons, List.tail_cons]
      by_cases h : gt a st.dominantFrequency.amplitude = true
      · have h' : lt st.dominantFrequency.amplitude a = true := h
        have hdom : (averageStep thr st f a).dominantFrequency = ⟨f, a⟩ := by
          rw [averageStep_dominant, if_pos h]
        rcases ih as (averageStep thr st f a) hlen' hnum' (by rw [hdom]; exact ha) with
          ⟨hr, hall⟩ | ⟨i, hi, hr, hlt, hmax, hfirst⟩
        · rw [hdom] at hr hall
          refine Or.inr ⟨0, by simp, by simpa using hr, by simpa using h', ?_, ?_⟩
          · intro j hj
            cases j with
            | zero => simpa using le_self ha
            | succ k =>
              have hk : k < as.length := by simpa using hj
              simpa using hall _ (getD_mem_of_lt as k hk)
          · intro j hj
            omega
        · rw [hdom] at hlt
          refine Or.inr ⟨i + 1, by simpa using hi, by simpa using hr,
            by simpa using lt_trans_eq_true h' hlt, ?_, ?_⟩
          · intro j hj
            cases j with
            | zero => simpa using le_of_lt_eq_true hlt
            | succ k =>
              have hk : k < as.length := by simpa using hj
              simpa using hmax k hk
          · intro j hj
            cases j with
            | zero => simpa using hlt
            | succ k => simpa using hfirst k (by omega)
      · have h' : lt st.dominantFrequency.amplitude a = false := by simpa using h
        have hle : le a st.dominantFrequency.amplitude = true := le_of_lt_eq_false hst ha h'
        have hdom : (averageStep thr st f a).dominantFrequency = st.dominantFrequency := by
          rw [averageStep_dominant, if_neg h]
        rcases ih as (averageStep thr st f a) hlen' hnum' (by rw [hdom]; exact hst) with
          ⟨hr, hall⟩ | ⟨i, hi, hr, hlt, hmax, hfirst⟩
        · rw [hdom] at hr hall
          refine Or.inl ⟨hr, ?_⟩
          intro b hb
          rcases List.mem_cons.mp hb with rfl | hb
          · exact hle
          · exact hall b hb
        · rw [hdom] at hlt
          refine Or.inr ⟨i + 1, by simpa using hi, by simpa using hr, by simpa using hlt,
            ?_, ?_⟩
          · intro j hj
            cases j with
            | zero => simpa using le_of_lt_eq_true (lt_of_le_of_lt_eq_true hle hlt)
            | succ k =>
              have hk : k < as.length := by simpa using hj
              simpa using hmax k hk
          · intro j hj
            cases j with
            | zero => simpa using lt_of_le_of_lt_eq_true hle hlt
            | succ k => simpa using hfirst k (by omega)

/-- C15: for frequency and amplitude sequences of equal length whose amplitudes are numbers,
one of them positive, the returned `dominantFrequency` is the point
`(frequencies[i], amplitudes[i])` at the first index `i` where the maximum amplitude is
attained: no amplitude is larger, and every earlier one is strictly smaller. -/
theorem dominantFrequency_first_maximum (frequencies amplitudes : List (JSNum α))
    (amplitudeThreshold : JSNum α) (hlen : frequencies.length = amplitudes.length)
    (hnum : ∀ a ∈ amplitudes, a ≠ nan) (hpos : ∃ a ∈ amplitudes, gt a (fin 0) = true) :
    ∃ i, i < amplitudes.length ∧
      (getAverageAndDominantFrequency frequencies amplitudes
        amplitudeThreshold).dominantFrequency
        = ⟨frequencies.getD i nan, amplitudes.getD i nan⟩ ∧
      (∀ j, j < amplitudes.length →
        le (amplitudes.getD j nan) (amplitudes.getD i nan) = true) ∧
      (∀ j, j < i → lt (amplitudes.getD j nan) (amplitudes.getD i nan) = true) := by
  rcases averageLoop_dominant_first amplitudeThreshold frequencies amplitudes
    ⟨fin 0, fin 1, ⟨fin 0, fin 0⟩⟩ hlen hnum (by simp) with
    ⟨_, hall⟩ | ⟨i, hi, hr, _, hmax, hfirst⟩
  · obtain ⟨a, ha, hgt⟩ := hpos
    have h1 := hall a ha
    have h2 : le a (fin 0) = false := not_le_of_lt_eq_true hgt
    simp only at h1
    rw [h1] at h2
    cases h2
  · exact ⟨i, hi, hr, hmax, hfirst⟩

/-- C15 (witness): the maximum 70 is attained at the indices 1 and 3; the point of index 1
is returned. -/
theorem dominantFrequency_first_maximum_witness :
    (getAverageAndDominantFrequency [fin 100, fin 200, fin 300, fin 400]
      [fin 3, fin 70, fin 5, fin 70] (fin (50 : ℚ))).dominantFrequency
      = ⟨fin 200, fin 70⟩ ∧
    ∃ i, i < ([fin 3, fin 70, fin 5, fin 70] : List (JSNum ℚ)).length ∧
      (getAverageAndDominantFrequency [fin 100, fin 200, fin 300, fin 400]
        [fin 3, fin 70, fin 5, fin 70] (fin (50 : ℚ))).dominantFrequency
        = ⟨([fin 100, fin 200, fin 300, fin 400] : List (JSNum ℚ)).getD i nan,
            ([fin 3, fin 70, fin 5, fin 70] : List (JSNum ℚ)).getD i nan⟩ ∧
      (∀ j, j < ([fin 3, fin 70, fin 5, fin 70] : List (JSNum ℚ)).length →
        le (([fin 3, fin 70, fin 5, fin 70] : List (JSNum ℚ)).getD j nan)
          (([fin 3, fin 70, fin 5, fin 70] : List (JSNum ℚ)).getD i nan) = true) ∧
      (∀ j, j < i →
        lt (([fin 3, fin 70, fin 5, fin 70] : List (JSNum ℚ)).getD j nan)
          (([fin 3, fin 70, fin 5, fin 70] : List (JSNum ℚ)).getD i nan) = true) :=
  ⟨by norm_num [getAverageAndDominantFrequency, averageLoop, averageStep],
    dominantFrequency_first_maximum [fin 100, fin 200, fin 300, fin 400]
      [fin 3, fin 70, fin 5, fin 70] (fin (50 : ℚ)) rfl
      (by intro a ha; simp at ha; rcases ha with rfl | rfl | rfl | rfl <;> simp)
      ⟨fin 70, by simp, by simp⟩⟩

/-! ### `findClosestNote` at the equal-tempered frequencies -/

theorem toStr_intCast (M : MathLib α) (k : ℤ) (hk : |(k : α)| < 10 ^ 21) :
    toStr M (fin (k : α)) = toString k := by
  simp [toStr, hk]

theorem floor_intCast_div_twelve (m : ℤ) : ⌊(m : α) / 12⌋ = m / 12 := by
  rw [Int.floor_eq_iff]
  have h1 : (12 : ℤ) * (m / 12) ≤ m := Int.mul_ediv_self_le (by norm_num)
  have h2 : m < 12 * (m / 12) + 12 := by
    have := Int.lt_ediv_add_one_mul_self m (show (0 : ℤ) < 12 by norm_num)
    linarith
  have h1' : (12 : α) * ((m / 12 : ℤ) : α) ≤ (m : α) := by exact_mod_cast h1
  have h2' : (m : α) < 12 * ((m / 12 : ℤ) : α) + 12 := by exact_mod_cast h2
  constructor
  · rw [le_div_iff₀ (by norm_num)]
    linarith
  · rw [div_lt_iff₀ (by norm_num)]
    linarith

theorem mod_twelve (m : ℤ) :
    (fin (m : α) % fin 12 : JSNum α)
      = fin (((if m < 0 ∧ m % 12 ≠ 0 then m % 12 - 12 else m % 12 : ℤ)) : α) := by
  have h12 : (12 : α) ≠ 0 := by norm_num
  have hdecomp : m = 12 * (m / 12) + m % 12 := (Int.ediv_add_emod m 12).symm
  have hr0 : 0 ≤ m % 12 := Int.emod_nonneg m (by norm_num)
  have hr1 : m % 12 < 12 := Int.emod_lt_of_pos m (by norm_num)
  have hfloor : ⌊(m : α) / 12⌋ = m / 12 := floor_intCast_div_twelve m
  have htrunc : trunc ((m : α) / 12)
      = if m < 0 ∧ m % 12 ≠ 0 then m / 12 + 1 else m / 12 := by
    unfold trunc
    by_cases hm : 0 ≤ m
    · have : (0 : α) ≤ (m : α) / 12 := div_nonneg (by exact_mod_cast hm) (by norm_num)
      rw [if_pos this, hfloor, if_neg (by omega)]
    · have hneg : ¬ (0 : α) ≤ (m : α) / 12 := by
        rw [not_le, div_neg_iff]
        right
        exact ⟨by exact_mod_cast (not_le.mp hm), by norm_num⟩
      rw [if_neg hneg]
      by_cases hr : m % 12 = 0
      · rw [if_neg (by omega)]
        have hm' : (m : α) / 12 = ((m / 12 : ℤ) : α) := by
          rw [div_eq_iff h12]
          have : m = m / 12 * 12 := by omega
          exact_mod_cast this
        rw [hm', Int.ceil_intCast]
      · rw [if_pos ⟨by omega, hr⟩, Int.ceil_eq_iff]
        have hd' : (m : α) = 12 * ((m / 12 : ℤ) : α) + ((m % 12 : ℤ) : α) := by
          exact_mod_cast hdecomp
        have hr0' : (0 : α) < ((m % 12 : ℤ) : α) := by
          have : 0 < m % 12 := by omega
          exact_mod_cast this
        have hr1' : ((m % 12 : ℤ) : α) < 12 := by exact_mod_cast hr1
        push_cast
        constructor
        · rw [lt_div_iff₀ (by norm_num)]
          linarith
        · rw [div_le_iff₀ (by norm_num)]
          linarith
  simp only [mod_def, mod_eq_7, if_neg h12, htrunc]
  congr 1
  have hd' : (m : α) = 12 * ((m / 12 : ℤ) : α) + ((m % 12 : ℤ) : α) := by
    exact_mod_cast hdecomp
  split_ifs <;> push_cast <;> linarith

theorem noteNameAt_intCast (r : ℤ) (hr : 0 ≤ r) :
    noteNameAt (fin (r : α)) = noteNames.getD r.toNat "undefined" := by
  have : (0 : α) ≤ (r : α) := by exact_mod_cast hr
  simp [noteNameAt, this]

/-- C13: when `12 * log2(f / 440)` is exactly the integer `n` (the frequency of the
equal-tempered note `n` semitones from A4), `findClosestNote(f)` returns the note name
`noteNames[(n + 9) mod 12]` followed by the octave `4 + floor((n + 9) / 12)`, except that for
`n + 9` negative and divisible by 12 (the notes C below C4) the octave is one more. Apart
from those notes the result is the name the specification gives (for octave numbers that
`toString` writes out in full). -/
theorem findClosestNote_of_semitones (M : MathLib α) (f : α) (n : ℤ) (hf : f ≠ 0)
    (hlog : log2 M (fin f / fin 440) = fin ((n : α) / 12)) :
    findClosestNote M (fin f)
      = noteNames.getD ((n + 9) % 12).toNat "undefined" ++
        toStr M (fin (((4 + (n + 9) / 12 +
          (if n + 9 < 0 ∧ (n + 9) % 12 = 0 then 1 else 0) : ℤ)) : α)) ∧
    (¬ (n + 9 < 0 ∧ (n + 9) % 12 = 0) → |(((4 + (n + 9) / 12 : ℤ)) : α)| < 10 ^ 21 →
      findClosestNote M (fin f) = equalTemperedNote n) := by
  have main : findClosestNote M (fin f)
      = noteNames.getD ((n + 9) % 12).toNat "undefined" ++
        toStr M (fin (((4 + (n + 9) / 12 +
          (if n + 9 < 0 ∧ (n + 9) % 12 = 0 then 1 else 0) : ℤ)) : α)) := by
    have hr0 : 0 ≤ (n + 9) % 12 := Int.emod_nonneg _ (by norm_num)
    have hr1 : (n + 9) % 12 < 12 := Int.emod_lt_of_pos _ (by norm_num)
    have hq : (12 : ℤ) * ((n + 9) / 12) + (n + 9) % 12 = n + 9 := Int.ediv_add_emod _ 12
    have hsemi : floor (fin 12 * fin ((n : α) / 12) + fin (1 / 2)) = fin (n : α) := by
      have h1 : (12 : α) * ((n : α) / 12) + 1 / 2 = (n : α) + 1 / 2 := by ring
      have h2 : ⌊(n : α) + 1 / 2⌋ = n := by
        rw [Int.floor_eq_iff]
        constructor <;> linarith
      simp only [mul_def, mul_eq_13, add_def, add_eq_13, floor_eq_4, h1, h2]
    have hsum : (fin (n : α) + fin 9 : JSNum α) = fin (((n + 9 : ℤ)) : α) := by
      simp
    have hfl : floor (fin (((n + 9 : ℤ)) : α) / fin 12) = fin ((((n + 9) / 12 : ℤ)) : α) := by
      have h12 : (12 : α) ≠ 0 := by norm_num
      simp only [div_def, div_eq_13, if_neg h12, floor_eq_4, floor_intCast_div_twelve]
    have hfz : strictEq (fin f) (fin 0) = false := by simp [hf]
    unfold findClosestNote
    rw [hfz]
    simp only [Bool.false_eq_true, if_false, hlog, hsemi, hsum, hfl, mod_twelve]
    by_cases hm : n + 9 < 0
    · by_cases hr : (n + 9) % 12 = 0
      · have hlt0 : lt (fin ((((n + 9) % 12 : ℤ)) : α)) (fin 0) = false := by
          rw [hr]
          simp
        have hq3 : (n + 9) / 12 ≤ -1 := by omega
        have hoct : lt (fin (4 : α) + fin ((((n + 9) / 12 : ℤ)) : α)) (fin 4) = true := by
          have : (((n + 9) / 12 : ℤ) : α) < 0 := by
            have : (n + 9) / 12 < 0 := by omega
            exact_mod_cast this
          simpa using this
        have hcond : ¬ (n + 9 < 0 ∧ (n + 9) % 12 ≠ 0) := fun h => h.2 hr
        simp only [if_neg hcond, hlt0, Bool.false_eq_true, if_false, hoct, if_true,
          if_pos (And.intro hm hr)]
        rw [noteNameAt_intCast _ hr0]
        congr 2
        simp
      · have hlt0 : lt (fin ((((n + 9) % 12 - 12 : ℤ)) : α)) (fin 0) = true := by
          have : ((((n + 9) % 12 - 12 : ℤ)) : α) < 0 := by
            have : (n + 9) % 12 - 12 < 0 := by omega
            exact_mod_cast this
          simpa using this
        have hoct : lt (fin (4 : α) + fin ((((n + 9) / 12 : ℤ)) : α) - fin 1) (fin 4) = true := by
          have : (((n + 9) / 12 : ℤ) : α) < 0 := by
            have : (n + 9) / 12 < 0 := by omega
            exact_mod_cast this
          simp
          linarith
        have hcond : n + 9 < 0 ∧ (n + 9) % 12 ≠ 0 := ⟨hm, hr⟩
        simp only [if_pos hcond, hlt0, if_true, hoct,
          if_neg (fun h : n + 9 < 0 ∧ (n + 9) % 12 = 0 => hr h.2)]
        have hidx : (fin ((((n + 9) % 12 - 12 : ℤ)) : α) + fin 12 : JSNum α)
            = fin ((((n + 9) % 12 : ℤ)) : α) := by
          simp
        rw [hidx, noteNameAt_intCast _ hr0]
        congr 2
        simp
    · have hlt0 : lt (fin ((((n + 9) % 12 : ℤ)) : α)) (fin 0) = false := by
        have : (0 : α) ≤ (((n + 9) % 12 : ℤ) : α) := by exact_mod_cast hr0
        simpa using this
      have hoct : lt (fin (4 : α) + fin ((((n + 9) / 12 : ℤ)) : α)) (fin 4) = false := by
        have : (0 : α) ≤ (((n + 9) / 12 : ℤ) : α) := by
          have : 0 ≤ (n + 9) / 12 := Int.ediv_nonneg (by omega) (by norm_num)
          exact_mod_cast this
        simpa using this
      simp only [if_neg (fun h : n + 9 < 0 ∧ (n + 9) % 12 ≠ 0 => hm h.1), hlt0,
        Bool.false_eq_true, if_false, hoct,
        if_neg (fun h : n + 9 < 0 ∧ (n + 9) % 12 = 0 => hm h.1)]
      rw [noteNameAt_intCast _ hr0]
      congr 2
      simp
  refine ⟨main, fun hC hoct => ?_⟩
  rw [main, if_neg hC, add_zero, toStr_intCast M _ hoct]
  rfl

/-- C13 (witness): the note C3, 21 semitones below A4, over the reals with the real logarithm:
`findClosestNote(440 * 2^(-21/12))` is "C4", where the specification names the note "C3". -/
theorem findClosestNote_C3 :
    (440 * (2 : ℝ) ^ ((-21 : ℝ) / 12) ≠ 0) ∧
    log2 ⟨Real.sqrt, Real.logb 10, Real.logb 2, fun y => (10 : ℝ) ^ y, fun _ => ""⟩
        (fin (440 * (2 : ℝ) ^ ((-21 : ℝ) / 12)) / fin 440)
      = fin ((((-21 : ℤ)) : ℝ) / 12) ∧
    findClosestNote ⟨Real.sqrt, Real.logb 10, Real.logb 2, fun y => (10 : ℝ) ^ y, fun _ => ""⟩
        (fin (440 * (2 : ℝ) ^ ((-21 : ℝ) / 12))) = "C4" ∧
    equalTemperedNote (-21) = "C3" := by
  have hpos : (0 : ℝ) < (2 : ℝ) ^ ((-21 : ℝ) / 12) := Real.rpow_pos_of_pos (by norm_num) _
  have hf : 440 * (2 : ℝ) ^ ((-21 : ℝ) / 12) ≠ 0 := by positivity
  have hlt1 : (2 : ℝ) ^ ((-21 : ℝ) / 12) < 1 := by
    have := Real.rpow_lt_rpow_of_exponent_lt (show (1 : ℝ) < 2 by norm_num)
      (show ((-21 : ℝ) / 12) < 0 by norm_num)
    simpa using this
  have hquot : 440 * (2 : ℝ) ^ ((-21 : ℝ) / 12) / 440 = (2 : ℝ) ^ ((-21 : ℝ) / 12) := by
    field_simp
  have hlog : log2 ⟨Real.sqrt, Real.logb 10, Real.logb 2, fun y => (10 : ℝ) ^ y, fun _ => ""⟩
        (fin (440 * (2 : ℝ) ^ ((-21 : ℝ) / 12)) / fin 440)
      = fin ((((-21 : ℤ)) : ℝ) / 12) := by
    have h440 : (440 : ℝ) ≠ 0 := by norm_num
    simp only [div_def, div_eq_13, if_neg h440, hquot, log2_eq_4, if_neg (not_lt.mpr hpos.le),
      if_neg hpos.ne', if_neg hlt1.ne]
    rw [Real.logb_rpow (by norm_num) (by norm_num)]
    norm_num
  refine ⟨hf, hlog, ?_, by decide⟩
  rw [(findClosestNote_of_semitones _ _ (-21) hf hlog).1]
  have e1 : ((-21 + 9 : ℤ) % 12).toNat = 0 := by decide
  have e2 : (4 + (-21 + 9 : ℤ) / 12 + (if (-21 + 9 : ℤ) < 0 ∧ (-21 + 9 : ℤ) % 12 = 0 then 1
      else 0) : ℤ) = 4 := by decide
  rw [e1, e2, toStr_intCast _ 4 (by norm_num)]
  decide

/-! ### `calculateFrameSize` at a power of two -/

theorem calculateFrameSize_small (L : MathLog α) (sampleRate fps : α) (hfps : fps ≠ 0)
    (hq : sampleRate / fps < 1024) :
    calculateFrameSize L (fin sampleRate) (fin fps) = fin 1024 := by
  simp [calculateFrameSize, hfps, hq]

/-- C19: with the double-precision values of `Math.log`, `calculateFrameSize(536870912, 1)`
is 1073741824: the quotient 536870912 is the power of two 2^29, but
`Math.log(536870912) / Math.log(2)` is a little more than 29, its ceiling is 30, and the
result is 2^30 instead of the unchanged quotient. -/
theorem calculateFrameSize_power_of_two_raised :
    calculateFrameSize doubleLog (fin 536870912) (fin 1) = fin 1073741824 ∧
    (536870912 : ℚ) = 2 ^ 29 ∧ (1073741824 : ℚ) = 2 ^ 30 ∧
    (29 : ℚ) < doubleLog.log 536870912 / doubleLog.log 2 := by
  have hc : ⌈(181056128276795424 / 6243314768165359 : ℚ)⌉ = 30 := by
    rw [Int.ceil_eq_iff]
    norm_num
  refine ⟨?_, by norm_num, by norm_num, by norm_num [doubleLog]⟩
  norm_num [calculateFrameSize, JSNum.log, JSNum.pow2, doubleLog, hc]

/-! ### `Binsamplitudes`: what each output bin sums -/

theorem newArray_eq_ok (X : JSNum α) (n : Nat) (h : newArray X = .ok n) :
    X = fin (n : α) := by
  cases X with
  | nan => simp [newArray] at h
  | negInf => simp [newArray] at h
  | posInf => simp [newArray] at h
  | fin x =>
    simp only [newArray] at h
    split_ifs at h with hx
    · simp only [Except.ok.injEq] at h
      obtain ⟨h0, hint, _⟩ := hx
      have hfl : 0 ≤ ⌊x⌋ := Int.floor_nonneg.mpr h0
      have h1 : ((⌊x⌋.toNat : ℕ) : ℤ) = ⌊x⌋ := Int.toNat_of_nonneg hfl
      have : ((⌊x⌋.toNat : ℕ) : α) = x :=
        calc ((⌊x⌋.toNat : ℕ) : α) = (((⌊x⌋.toNat : ℕ) : ℤ) : α) := (Int.cast_natCast _).symm
          _ = ((⌊x⌋ : ℤ) : α) := by rw [h1]
          _ = x := hint
      rw [← h, this]

theorem getD_set_eq (l : List α) (i j : Nat) (v : α) (hi : i < l.length) :
    (l.set i v).getD j 0 = if j = i then v else l.getD j 0 := by
  simp only [List.getD_eq_getElem?_getD, List.getElem?_set]
  by_cases h : i = j
  · subst h
    simp [hi]
  · simp [h, Ne.symm h]

theorem adjustedBinIndex_nan (M : MathLib α) (numBins minFreq maxFreq aggregationFactor
    frequency : JSNum α) (h : frequency = nan ∨ minFreq = nan ∨ maxFreq = nan) :
    adjustedBinIndex M numBins minFreq maxFreq aggregationFactor frequency = nan := by
  have key : ∀ x m y : JSNum α, (x = nan ∨ m = nan ∨ y = nan) →
      floor (floor ((x - m) / ((y - m) / numBins)) / aggregationFactor) = nan := by
    intro x m y hxy
    rcases hxy with rfl | rfl | rfl
    · simp
    · cases x <;> simp
    · cases x <;> cases m <;> simp
  unfold adjustedBinIndex
  apply key
  rcases h with rfl | rfl | rfl
  · exact Or.inl (by simp)
  · exact Or.inr (Or.inl (by simp))
  · exact Or.inr (Or.inr (by simp))

theorem adjustedBinIndex_integer (M : MathLib α) (numBins minFreq maxFreq aggregationFactor
    frequency : JSNum α) (y : α)
    (h : adjustedBinIndex M numBins minFreq maxFreq aggregationFactor frequency = fin y) :
    ((⌊y⌋ : ℤ) : α) = y := by
  unfold adjustedBinIndex at h
  generalize floor ((log10 M frequency - log10 M minFreq) /
    ((log10 M maxFreq - log10 M minFreq) / numBins)) / aggregationFactor = Z at h
  cases Z with
  | nan => simp at h
  | negInf => simp at h
  | posInf => simp at h
  | fin z =>
    simp only [floor_eq_4, fin.injEq] at h
    rw [← h, Int.floor_intCast]

theorem binStep_eq (M : MathLib α) (numBins minFreq maxFreq aggregationFactor
    adjustedNumBins : JSNum α) (bins : List (JSNum α)) (frequency amplitude : JSNum α) :
    binStep M minFreq maxFreq (log10 M minFreq)
        ((log10 M maxFreq - log10 M minFreq) / numBins) aggregationFactor adjustedNumBins bins
        frequency amplitude
      = if lt frequency minFreq || gt frequency maxFreq then bins
        else if ge (adjustedBinIndex M numBins minFreq maxFreq aggregationFactor frequency)
            (fin 0) &&
          lt (adjustedBinIndex M numBins minFreq maxFreq aggregationFactor frequency)
            adjustedNumBins
        then addAt bins
          (adjustedBinIndex M numBins minFreq maxFreq aggregationFactor frequency) amplitude
        else bins := rfl

theorem binStep_cases (M : MathLib α) (numBins minFreq maxFreq aggregationFactor : JSNum α)
    (n : Nat) (bs : List α) (hbs : bs.length = n) (f : JSNum α) (a : α) :
    (binStep M minFreq maxFreq (log10 M minFreq)
          ((log10 M maxFreq - log10 M minFreq) / numBins) aggregationFactor (fin (n : α))
          (bs.map fin) f (fin a) = bs.map fin ∧
      ∀ j, j < n → contributesTo M numBins minFreq maxFreq aggregationFactor j f = false) ∨
    ∃ i, i < n ∧
      binStep M minFreq maxFreq (log10 M minFreq)
          ((log10 M maxFreq - log10 M minFreq) / numBins) aggregationFactor (fin (n : α))
          (bs.map fin) f (fin a) = (bs.set i (bs.getD i 0 + a)).map fin ∧
      ∀ j, contributesTo M numBins minFreq maxFreq aggregationFactor j f = decide (j = i) := by
  rw [binStep_eq]
  by_cases hskip : (lt f minFreq || gt f maxFreq) = true
  · rw [if_pos hskip]
    refine Or.inl ⟨rfl, fun j _ => ?_⟩
    unfold contributesTo
    rcases Bool.or_eq_true _ _ |>.mp hskip with h | h
    · simp [not_le_of_lt_eq_true h]
    · have h' : lt maxFreq f = true := h
      simp [not_le_of_lt_eq_true h']
  · rw [if_neg hskip]
    have hs1 : lt f minFreq = false := by
      cases h : lt f minFreq
      · rfl
      · exact absurd (by simp [h]) hskip
    have hs2 : lt maxFreq f = false := by
      cases h : lt maxFreq f
      · rfl
      · exact absurd (by simp [gt, h]) hskip
    by_cases hguard : (ge (adjustedBinIndex M numBins minFreq maxFreq aggregationFactor f)
        (fin 0) &&
        lt (adjustedBinIndex M numBins minFreq maxFreq aggregationFactor f) (fin (n : α)))
        = true
    · rw [if_pos hguard]
      obtain ⟨hg1, hg2⟩ := Bool.and_eq_true _ _ |>.mp hguard
      cases hidx : adjustedBinIndex M numBins minFreq maxFreq aggregationFactor f with
      | nan => rw [hidx] at hg1; simp at hg1
      | negInf => rw [hidx] at hg1; simp at hg1
      | posInf => rw [hidx] at hg2; simp at hg2
      | fin y =>
        rw [hidx] at hg1 hg2
        have hy0 : 0 ≤ y := by simpa using hg1
        have hyn : y < n := by simpa using hg2
        have hint := adjustedBinIndex_integer M numBins minFreq maxFreq aggregationFactor f y hidx
        have hfl : 0 ≤ ⌊y⌋ := Int.floor_nonneg.mpr hy0
        have hnat : ((⌊y⌋.toNat : ℕ) : ℤ) = ⌊y⌋ := Int.toNat_of_nonneg hfl
        have hi : ((⌊y⌋.toNat : ℕ) : α) = y :=
          calc ((⌊y⌋.toNat : ℕ) : α) = (((⌊y⌋.toNat : ℕ) : ℤ) : α) :=
                (Int.cast_natCast _).symm
            _ = ((⌊y⌋ : ℤ) : α) := by rw [hnat]
            _ = y := hint
        have hin : ⌊y⌋.toNat < n := by
          have : ((⌊y⌋.toNat : ℕ) : α) < n := by rw [hi]; exact hyn
          exact_mod_cast this
        have hfne : f ≠ nan ∧ minFreq ≠ nan ∧ maxFreq ≠ nan := by
          refine ⟨?_, ?_, ?_⟩ <;> intro h <;>
            rw [adjustedBinIndex_nan M numBins minFreq maxFreq aggregationFactor f
              (by simp [h])] at hidx <;> cases hidx
        have hle1 : le minFreq f = true := le_of_lt_eq_false hfne.1 hfne.2.1 hs1
        have hle2 : le f maxFreq = true := le_of_lt_eq_false hfne.2.2 hfne.1 hs2
        refine Or.inr ⟨⌊y⌋.toNat, hin, ?_, ?_⟩
        · have hget : (bs.map fin).getD ⌊y⌋.toNat nan = fin (bs.getD ⌊y⌋.toNat 0) := by
            have hlt : ⌊y⌋.toNat < bs.length := by rw [hbs]; exact hin
            simp [List.getD_eq_getElem?_getD, List.getElem?_map, List.getElem?_eq_getElem hlt]
          simp only [addAt, hget, add_def, add_eq_13, List.map_set]
        · intro j
          unfold contributesTo
          rw [hle1, hle2, hidx]
          simp only [Bool.and_self, Bool.true_and, fin.injEq]
          congr 1
          apply propext
          constructor
          · intro h
            have : ((⌊y⌋.toNat : ℕ) : α) = (j : α) := by rw [hi, h]
            exact_mod_cast this.symm
          · intro h
            rw [h, hi]
    · rw [if_neg hguard]
      refine Or.inl ⟨rfl, fun j hj => ?_⟩
      unfold contributesTo
      have : adjustedBinIndex M numBins minFreq maxFreq aggregationFactor f ≠ fin (j : α) := by
        intro h
        apply hguard
        rw [h]
        have hj' : (j : α) < n := by exact_mod_cast hj
        simp [hj']
      simp [this]

theorem binStep_fin (M : MathLib α) (numBins minFreq maxFreq aggregationFactor : JSNum α)
    (n : Nat) (bs : List α) (hbs : bs.length = n) (f : JSNum α) (a : α) :
    ∃ bs' : List α,
      binStep M minFreq maxFreq (log10 M minFreq)
          ((log10 M maxFreq - log10 M minFreq) / numBins) aggregationFactor (fin (n : α))
          (bs.map fin) f (fin a) = bs'.map fin ∧
      bs'.length = n ∧
      ∀ j, j < n → bs'.getD j 0 = bs.getD j 0 +
        (if contributesTo M numBins minFreq maxFreq aggregationFactor j f then a else 0) := by
  rcases binStep_cases M numBins minFreq maxFreq aggregationFactor n bs hbs f a with
    ⟨h, hnone⟩ | ⟨i, hi, h, hc⟩
  · refine ⟨bs, h, hbs, fun j hj => ?_⟩
    simp [hnone j hj]
  · refine ⟨_, h, by simp [hbs], fun j _ => ?_⟩
    rw [getD_set_eq _ _ _ _ (by rw [hbs]; exact hi), hc j]
    by_cases hji : j = i
    · simp [hji]
    · simp [hji]

theorem binLoop_fin (M : MathLib α) (numBins minFreq maxFreq aggregationFactor : JSNum α)
    (n : Nat) (frequencies : List (JSNum α)) (amplitudes bs : List α)
    (hlen : frequencies.length = amplitudes.length) (hbs : bs.length = n) :
    ∃ bs' : List α,
      binLoop M minFreq maxFreq (log10 M minFreq)
          ((log10 M maxFreq - log10 M minFreq) / numBins) aggregationFactor (fin (n : α))
          frequencies (amplitudes.map fin) (bs.map fin) = bs'.map fin ∧
      bs'.length = n ∧
      ∀ j, j < n → bs'.getD j 0 = bs.getD j 0 +
        (((frequencies.zip amplitudes).filter fun p =>
          contributesTo M numBins minFreq maxFreq aggregationFactor j p.1).map Prod.snd).sum := by
  induction frequencies generalizing amplitudes bs with
  | nil => exact ⟨bs, rfl, hbs, by simp⟩
  | cons f fs ih =>
    cases amplitudes with
    | nil => simp at hlen
    | cons a as =>
      have hlen' : fs.length = as.length := by simpa using hlen
      obtain ⟨bs1, h1, hl1, hs1⟩ :=
        binStep_fin M numBins minFreq maxFreq aggregationFactor n bs hbs f a
      obtain ⟨bs2, h2, hl2, hs2⟩ := ih as bs1 hlen' hl1
      refine ⟨bs2, ?_, hl2, ?_⟩
      · simp only [binLoop, List.map_cons, List.headD_cons, List.tail_cons, h1, h2]
      · intro j hj
        rw [hs2 j hj, hs1 j hj, List.zip_cons_cons]
        by_cases hc : contributesTo M numBins minFreq maxFreq aggregationFactor j f = true
        · rw [List.filter_cons_of_pos (by simpa using hc)]
          simp [hc, add_assoc]
        · rw [List.filter_cons_of_neg (by simpa using hc)]
          simp [hc]

/-- C17: whenever the bin array can be created (`ceil(numBins / aggregationFactor)` is a valid
array length `n`, as for every integer bin count from 1 to 2^32 - 1 and aggregation factor
`>= 1`), for frequencies and finite amplitudes of equal length `Binsamplitudes` returns `n`
finite bins, and output bin `j` is the sum of `amplitudes[i]` over exactly the indices `i` with
`minFreq <= frequencies[i] <= maxFreq` whose adjusted bin index is `j`; all other points are
in no bin. -/
theorem Binsamplitudes_bin_sums (M : MathLib α) (frequencies : List (JSNum α))
    (amplitudes : List α) (numBins minFreq maxFreq aggregationFactor : JSNum α) (n : Nat)
    (hlen : frequencies.length = amplitudes.length)
    (hnew : newArray (ceil (numBins / aggregationFactor)) = .ok n) :
    ∃ bins : List α,
      Binsamplitudes M frequencies (amplitudes.map fin) numBins minFreq maxFreq
        aggregationFactor = .ok (bins.map fin) ∧
      bins.length = n ∧
      ∀ j, j < n → bins.getD j 0 =
        (((frequencies.zip amplitudes).filter fun p =>
          contributesTo M numBins minFreq maxFreq aggregationFactor j p.1).map Prod.snd).sum := by
  have hceil := newArray_eq_ok _ n hnew
  obtain ⟨bs', h1, h2, h3⟩ := binLoop_fin M numBins minFreq maxFreq aggregationFactor n
    frequencies amplitudes (List.replicate n 0) hlen (by simp)
  refine ⟨bs', ?_, h2, ?_⟩
  · simp only [Binsamplitudes, hnew]
    show Except.ok _ = Except.ok _
    rw [hceil]
    rw [List.map_replicate] at h1
    rw [h1]
  · intro j hj
    rw [h3 j hj]
    simp [List.getD_eq_getElem?_getD, hj]

/-- C17 (witness): four bins from 10 Hz to 1000 Hz aggregated in pairs, over the reals with the
real logarithm: the bin array has two entries and each is the sum of the amplitudes whose
adjusted index it is. -/
theorem Binsamplitudes_bin_sums_witness :
    ([fin 10, fin 100, fin 1000] : List (JSNum ℝ)).length = ([1, 2, 4] : List ℝ).length ∧
    newArray (ceil ((fin 4 : JSNum ℝ) / fin 2)) = .ok 2 ∧
    ∃ bins : List ℝ,
      Binsamplitudes ⟨Real.sqrt, Real.logb 10, Real.logb 2, fun y => (10 : ℝ) ^ y, fun _ => ""⟩
        [fin 10, fin 100, fin 1000] (([1, 2, 4] : List ℝ).map fin) (fin 4) (fin 10) (fin 1000)
        (fin 2) = .ok (bins.map fin) ∧
      bins.length = 2 ∧
      ∀ j, j < 2 → bins.getD j 0 =
        (((([fin 10, fin 100, fin 1000] : List (JSNum ℝ)).zip ([1, 2, 4] : List ℝ)).filter
          fun p => contributesTo
            ⟨Real.sqrt, Real.logb 10, Real.logb 2, fun y => (10 : ℝ) ^ y, fun _ => ""⟩
            (fin 4) (fin 10) (fin 1000) (fin 2) j p.1).map Prod.snd).sum :=
  have hnew : newArray (ceil ((fin 4 : JSNum ℝ) / fin 2)) = .ok 2 := by
    have hc : ⌈(4 : ℝ) / 2⌉ = 2 := by
      rw [Int.ceil_eq_iff]
      norm_num
    have h : ceil ((fin 4 : JSNum ℝ) / fin 2) = fin ((2 : ℕ) : ℝ) := by
      simp [hc]
    rw [h]
    exact newArray_ofNat 2 (by norm_num)
  ⟨rfl, hnew, Binsamplitudes_bin_sums _ _ _ _ _ _ _ 2 rfl hnew⟩

/-! ### `Binsamplitudes` and `BinsfrequencyRanges`: the bin boundaries -/

theorem sum_set_add (l : List α) (i : Nat) (hi : i < l.length) (a : α) :
    (l.set i (l.getD i 0 + a)).sum = l.sum + a := by
  induction l generalizing i with
  | nil => simp at hi
  | cons x xs ih =>
    cases i with
    | zero => simp [add_right_comm]
    | succ k =>
      have hk : k < xs.length := by simpa using hi
      simp only [List.set_cons_succ, List.sum_cons, List.getD_cons_succ]
      rw [ih k hk, add_assoc]

theorem ceil_div_one (n : Nat) : ceil (fin (n : α) / fin 1) = fin (n : α) := by
  simp

theorem contributesTo_index_unique (M : MathLib α)
    (numBins minFreq maxFreq aggregationFactor f : JSNum α) (i j : Nat)
    (hi : contributesTo M numBins minFreq maxFreq aggregationFactor i f = true)
    (hj : contributesTo M numBins minFreq maxFreq aggregationFactor j f = true) : i = j := by
  unfold contributesTo at hi hj
  simp only [Bool.and_eq_true, decide_eq_true_eq] at hi hj
  have h : (fin (i : α) : JSNum α) = fin (j : α) := hi.2.symm.trans hj.2
  have h' : (i : α) = (j : α) := by simpa using h
  exact_mod_cast h'

theorem binStep_of_contributesTo (M : MathLib α) (numBins minFreq maxFreq aggregationFactor
    f : JSNum α) (n i : Nat) (hi : i < n)
    (hc : contributesTo M numBins minFreq maxFreq aggregationFactor i f = true)
    (bins : List (JSNum α)) (amplitude : JSNum α) :
    binStep M minFreq maxFreq (log10 M minFreq)
        ((log10 M maxFreq - log10 M minFreq) / numBins) aggregationFactor (fin (n : α)) bins
        f amplitude = addAt bins (fin (i : α)) amplitude := by
  unfold contributesTo at hc
  simp only [Bool.and_eq_true, decide_eq_true_eq] at hc
  obtain ⟨⟨h1, h2⟩, h3⟩ := hc
  have hs1 : lt f minFreq = false := by
    cases h : lt f minFreq
    · rfl
    · rw [not_le_of_lt_eq_true h] at h1
      cases h1
  have hs2 : gt f maxFreq = false := by
    cases h : lt maxFreq f
    · exact h
    · rw [not_le_of_lt_eq_true h] at h2
      cases h2
  have hin : (i : α) < n := by exact_mod_cast hi
  rw [binStep_eq, h3, hs1, hs2]
  simp [hin]

theorem binStep_sum (M : MathLib α) (numBins minFreq maxFreq aggregationFactor : JSNum α)
    (n : Nat) (bs : List α) (hbs : bs.length = n) (f : JSNum α) (a : α) :
    ∃ bs' : List α,
      binStep M minFreq maxFreq (log10 M minFreq)
          ((log10 M maxFreq - log10 M minFreq) / numBins) aggregationFactor (fin (n : α))
          (bs.map fin) f (fin a) = bs'.map fin ∧
      bs'.length = n ∧
      bs'.sum = bs.sum + (if (List.range n).any
        (fun j => contributesTo M numBins minFreq maxFreq aggregationFactor j f) then a
        else 0) := by
  rcases binStep_cases M numBins minFreq maxFreq aggregationFactor n bs hbs f a with
    ⟨h, hnone⟩ | ⟨i, hi, h, hc⟩
  · refine ⟨bs, h, hbs, ?_⟩
    have hany : (List.range n).any
        (fun j => contributesTo M numBins minFreq maxFreq aggregationFactor j f) = false := by
      rw [List.any_eq_false]
      intro j hj
      rw [hnone j (List.mem_range.mp hj)]
      simp
    rw [hany]
    simp
  · refine ⟨_, h, by simp [hbs], ?_⟩
    have hany : (List.range n).any
        (fun j => contributesTo M numBins minFreq maxFreq aggregationFactor j f) = true := by
      rw [List.any_eq_true]
      exact ⟨i, List.mem_range.mpr hi, by rw [hc i]; simp⟩
    rw [hany, if_pos rfl]
    exact sum_set_add bs i (by rw [hbs]; exact hi) a

theorem binLoop_sum (M : MathLib α) (numBins minFreq maxFreq aggregationFactor : JSNum α)
    (n : Nat) (frequencies : List (JSNum α)) (amplitudes bs : List α)
    (hlen : frequencies.length = amplitudes.length) (hbs : bs.length = n) :
    ∃ bs' : List α,
      binLoop M minFreq maxFreq (log10 M minFreq)
          ((log10 M maxFreq - log10 M minFreq) / numBins) aggregationFactor (fin (n : α))
          frequencies (amplitudes.map fin) (bs.map fin) = bs'.map fin ∧
      bs'.length = n ∧
      bs'.sum = bs.sum + (((frequencies.zip amplitudes).filter fun p =>
        (List.range n).any fun j =>
          contributesTo M numBins minFreq maxFreq aggregationFactor j p.1).map Prod.snd).sum := by
  induction frequencies generalizing amplitudes bs with
  | nil => exact ⟨bs, rfl, hbs, by simp⟩
  | cons f fs ih =>
    cases amplitudes with
    | nil => simp at hlen
    | cons a as =>
      have hlen' : fs.length = as.length := by simpa using hlen
      obtain ⟨bs1, h1, hl1, hs1⟩ :=
        binStep_sum M numBins minFreq maxFreq aggregationFactor n bs hbs f a
      obtain ⟨bs2, h2, hl2, hs2⟩ := ih as bs1 hlen' hl1
      refine ⟨bs2, ?_, hl2, ?_⟩
      · simp only [binLoop, List.map_cons, List.headD_cons, List.tail_cons, h1, h2]
      · rw [hs2, hs1, List.zip_cons_cons]
        by_cases hc : (List.range n).any
            (fun j => contributesTo M numBins minFreq maxFreq aggregationFactor j f) = true
        · simp [List.filter_cons, hc, add_assoc]
        · simp [List.filter_cons, hc]

theorem adjustedBinIndex_of_logs (M : MathLib α) (n : Nat) (lo hi f minLog maxLog logF : α)
    (hn1 : 1 ≤ n) (hlo : log10 M (fin lo) = fin minLog) (hhi : log10 M (fin hi) = fin maxLog)
    (hf : log10 M (fin f) = fin logF) (hlt : minLog < maxLog) :
    adjustedBinIndex M (fin (n : α)) (fin lo) (fin hi) (fin 1) (fin f) =
      fin ((⌊(logF - minLog) / ((maxLog - minLog) / n)⌋ : ℤ) : α) := by
  have hn0 : (n : α) ≠ 0 := by
    have : (0 : α) < n := by exact_mod_cast hn1
    exact this.ne'
  have hsize : (maxLog + -minLog) / n ≠ 0 := by
    rw [← sub_eq_add_neg]
    exact div_ne_zero (sub_pos.mpr hlt).ne' hn0
  simp only [adjustedBinIndex, hlo, hhi, hf]
  simp [hn0, hsize, sub_eq_add_neg]

theorem contributesTo_iff_thresholds (M : MathLib α) (n : Nat) (lo hi f minLog maxLog logF : α)
    (hn1 : 1 ≤ n) (hlo : log10 M (fin lo) = fin minLog) (hhi : log10 M (fin hi) = fin maxLog)
    (hf : log10 M (fin f) = fin logF) (hlt : minLog < maxLog) (hlof : lo ≤ f) (hfhi : f ≤ hi)
    (i : Nat) :
    contributesTo M (fin (n : α)) (fin lo) (fin hi) (fin 1) i (fin f) = true ↔
      (i : α) * ((maxLog - minLog) / n) + minLog ≤ logF ∧
      logF < ((i : α) + 1) * ((maxLog - minLog) / n) + minLog := by
  have hnpos : (0 : α) < n := by exact_mod_cast hn1
  have hsize : 0 < (maxLog - minLog) / n := div_pos (sub_pos.mpr hlt) hnpos
  unfold contributesTo
  rw [adjustedBinIndex_of_logs M n lo hi f minLog maxLog logF hn1 hlo hhi hf hlt]
  simp only [le_eq_6, hlof, hfhi, decide_True, Bool.and_self, Bool.true_and,
    decide_eq_true_eq, fin.injEq]
  have hcast : (((⌊(logF - minLog) / ((maxLog - minLog) / n)⌋ : ℤ) : α) = (i : α)) ↔
      ⌊(logF - minLog) / ((maxLog - minLog) / n)⌋ = (i : ℤ) := by
    constructor
    · intro h
      have h' : ((⌊(logF - minLog) / ((maxLog - minLog) / n)⌋ : ℤ) : α) = (((i : ℤ)) : α) := by
        rw [h, Int.cast_natCast]
      exact_mod_cast h'
    · intro h
      rw [h, Int.cast_natCast]
  rw [hcast, Int.floor_eq_iff, le_div_iff₀ hsize, div_lt_iff₀ hsize, Int.cast_natCast]
  constructor
  · rintro ⟨h1, h2⟩
    exact ⟨by linarith, by linarith⟩
  · rintro ⟨h1, h2⟩
    exact ⟨by linarith, by linarith⟩

/-- C20 (amended): for an integer bin count `1 <= n <= 2^32 - 1`, finite `0 < lo < hi` and
aggregation factor 1, whatever values `Math.log10` and `Math.pow` have: a point is accumulated
into at most one bin; a point that the formula puts into bin `i < n` is added by the loop body
of `Binsamplitudes` at index `i`; for frequencies and finite amplitudes of equal length the `n`
bins sum to the sum of the amplitudes of the points that the formula puts into one of the bins
`0 .. n - 1`; the bounds of `ranges[i]` are `Math.pow(10, ·)` of the thresholds
`i * binSize + minLog` and `(i + 1) * binSize + minLog`; and when
`Math.log10(lo) < Math.log10(hi)`, a frequency `f` with `lo <= f <= hi` is in bin `i` exactly
when `Math.log10(f)` is at least the first threshold and below the second. -/
theorem Binsamplitudes_and_ranges (M : MathLib α) (n : Nat) (lo hi : α)
    (hn1 : 1 ≤ n) (hn : n ≤ 4294967295) (hlo : 0 < lo) (hlt : lo < hi) :
    (∀ (f : JSNum α) (i j : Nat),
      contributesTo M (fin (n : α)) (fin lo) (fin hi) (fin 1) i f = true →
      contributesTo M (fin (n : α)) (fin lo) (fin hi) (fin 1) j f = true → i = j) ∧
    (∀ (f : JSNum α) (i : Nat), i < n →
      contributesTo M (fin (n : α)) (fin lo) (fin hi) (fin 1) i f = true →
      ∀ (bins : List (JSNum α)) (amplitude : JSNum α),
        binStep M (fin lo) (fin hi) (log10 M (fin lo))
            ((log10 M (fin hi) - log10 M (fin lo)) / fin (n : α)) (fin 1)
            (ceil (fin (n : α) / fin 1)) bins f amplitude
          = addAt bins (fin (i : α)) amplitude) ∧
    (∀ (frequencies : List (JSNum α)) (amplitudes : List α),
      frequencies.length = amplitudes.length →
      ∃ bins : List α,
        Binsamplitudes M frequencies (amplitudes.map fin) (fin (n : α)) (fin lo) (fin hi)
          (fin 1) = .ok (bins.map fin) ∧
        bins.length = n ∧
        bins.sum = (((frequencies.zip amplitudes).filter fun p =>
          (List.range n).any fun j =>
            contributesTo M (fin (n : α)) (fin lo) (fin hi) (fin 1) j p.1).map Prod.snd).sum) ∧
    ∃ minLog maxLog : α,
      log10 M (fin lo) = fin minLog ∧ log10 M (fin hi) = fin maxLog ∧
      (∃ ranges, BinsfrequencyRanges M (fin (n : α)) (fin lo) (fin hi) = .ok ranges ∧
        ∀ i : Nat, i < n → ranges[i]? = some
          (pow10 M (fin ((i : α) * ((maxLog - minLog) / n) + minLog)),
           pow10 M (fin (((i : α) + 1) * ((maxLog - minLog) / n) + minLog)))) ∧
      (minLog < maxLog → ∀ (f logF : α) (i : Nat), lo ≤ f → f ≤ hi →
        log10 M (fin f) = fin logF →
        (contributesTo M (fin (n : α)) (fin lo) (fin hi) (fin 1) i (fin f) = true ↔
          (i : α) * ((maxLog - minLog) / n) + minLog ≤ logF ∧
          logF < ((i : α) + 1) * ((maxLog - minLog) / n) + minLog)) := by
  have hn0 : (n : α) ≠ 0 := by
    have : (0 : α) < n := by exact_mod_cast hn1
    exact this.ne'
  have hhi : 0 < hi := hlo.trans hlt
  refine ⟨fun f i j => contributesTo_index_unique M _ _ _ _ f i j, ?_, ?_,
    _, _, log10_fin_pos M hlo, log10_fin_pos M hhi, ?_, ?_⟩
  · intro f i hi hc bins amplitude
    rw [ceil_div_one]
    exact binStep_of_contributesTo M _ _ _ _ f n i hi hc bins amplitude
  · intro frequencies amplitudes hlen
    obtain ⟨bs', h1, h2, h3⟩ := binLoop_sum M (fin (n : α)) (fin lo) (fin hi) (fin 1) n
      frequencies amplitudes (List.replicate n 0) hlen (by simp)
    refine ⟨bs', ?_, h2, ?_⟩
    · simp only [Binsamplitudes, ceil_div_one, newArray_ofNat n hn]
      show Except.ok _ = Except.ok _
      rw [List.map_replicate] at h1
      rw [h1]
    · rw [h3]
      simp
  · refine ⟨(List.range n).map fun index : Nat =>
      (pow10 M (ofNat index * ((log10 M (fin hi) - log10 M (fin lo)) / fin (n : α))
        + log10 M (fin lo)),
       pow10 M ((ofNat index + fin 1) * ((log10 M (fin hi) - log10 M (fin lo)) / fin (n : α))
        + log10 M (fin lo))), ?_, fun i hi => ?_⟩
    · simp only [BinsfrequencyRanges, newArray_ofNat n hn]
      rfl
    · rw [List.getElem?_map, List.getElem?_range hi]
      simp only [Option.map_some', log10_fin_pos M hlo, log10_fin_pos M hhi, sub_def, sub,
        neg_eq_4, add_def, add_eq_13, div_def, div_eq_13, if_neg hn0, ofNat, mul_def,
        mul_eq_13, ← sub_eq_add_neg]
  · intro hlog f logF i hlof hfhi hf
    exact contributesTo_iff_thresholds M n lo hi f _ _ logF hn1 (log10_fin_pos M hlo)
      (log10_fin_pos M hhi) hf hlog hlof hfhi i

/-- C20 (witness): three bins from 20 Hz to 20000 Hz with the values of `Math.log10` and
`Math.pow` in double-precision arithmetic. -/
theorem Binsamplitudes_and_ranges_witness :
    1 ≤ 3 ∧ 3 ≤ 4294967295 ∧ (0 : ℚ) < 20 ∧ (20 : ℚ) < 20000 ∧
    ((∀ (f : JSNum ℚ) (i j : Nat),
       contributesTo doubleMath (fin ((3 : Nat) : ℚ)) (fin 20) (fin 20000) (fin 1) i f = true →
       contributesTo doubleMath (fin ((3 : Nat) : ℚ)) (fin 20) (fin 20000) (fin 1) j f = true → i = j) ∧
     (∀ (f : JSNum ℚ) (i : Nat), i < 3 →
       contributesTo doubleMath (fin ((3 : Nat) : ℚ)) (fin 20) (fin 20000) (fin 1) i f = true →
       ∀ (bins : List (JSNum ℚ)) (amplitude : JSNum ℚ),
         binStep doubleMath (fin 20) (fin 20000) (log10 doubleMath (fin 20))
             ((log10 doubleMath (fin 20000) - log10 doubleMath (fin 20)) / fin ((3 : Nat) : ℚ)) (fin 1)
             (ceil (fin ((3 : Nat) : ℚ) / fin 1)) bins f amplitude
           = addAt bins (fin (i : ℚ)) amplitude) ∧
     (∀ (frequencies : List (JSNum ℚ)) (amplitudes : List ℚ),
       frequencies.length = amplitudes.length →
       ∃ bins : List ℚ,
         Binsamplitudes doubleMath frequencies (amplitudes.map fin) (fin ((3 : Nat) : ℚ)) (fin 20) (fin 20000)
           (fin 1) = .ok (bins.map fin) ∧
         bins.length = 3 ∧
         bins.sum = (((frequencies.zip amplitudes).filter fun p =>
           (List.range 3).any fun j =>
             contributesTo doubleMath (fin ((3 : Nat) : ℚ)) (fin 20) (fin 20000) (fin 1) j p.1).map Prod.snd).sum) ∧
     ∃ minLog maxLog : ℚ,
       log10 doubleMath (fin 20) = fin minLog ∧ log10 doubleMath (fin 20000) = fin maxLog ∧
       (∃ ranges, BinsfrequencyRanges doubleMath (fin ((3 : Nat) : ℚ)) (fin 20) (fin 20000) = .ok ranges ∧
         ∀ i : Nat, i < 3 → ranges[i]? = some
           (pow10 doubleMath (fin ((i : ℚ) * ((maxLog - minLog) / ((3 : Nat) : ℚ)) + minLog)),
            pow10 doubleMath (fin (((i : ℚ) + 1) * ((maxLog - minLog) / ((3 : Nat) : ℚ)) + minLog)))) ∧
       (minLog < maxLog → ∀ (f logF : ℚ) (i : Nat), 20 ≤ f → f ≤ 20000 →
         log10 doubleMath (fin f) = fin logF →
         (contributesTo doubleMath (fin ((3 : Nat) : ℚ)) (fin 20) (fin 20000) (fin 1) i (fin f) = true ↔
           (i : ℚ) * ((maxLog - minLog) / ((3 : Nat) : ℚ)) + minLog ≤ logF ∧
           logF < ((i : ℚ) + 1) * ((maxLog - minLog) / ((3 : Nat) : ℚ)) + minLog))) :=
  ⟨by norm_num, by norm_num, by norm_num, by norm_num,
    Binsamplitudes_and_ranges doubleMath 3 20 20000 (by norm_num) (by norm_num) (by norm_num)
      (by norm_num)⟩

/-- C20 (counterexample): with the double-precision values of `Math.log10` and `Math.pow`.
Three bins from 20 Hz to 20000 Hz: the frequency 20 is accumulated into bin 0, but the low
bound of `ranges[0]` is 20.000000000000004, above it. Three bins from 1 Hz to 1000 Hz: the
frequency 999.9999999999999 is in `[1, 1000)`, but its logarithm is 3, its bin index is 3 and
its amplitude 2 is dropped, so the bins sum to 1 and not to 3. -/
theorem Binsamplitudes_ranges_disagree :
    Binsamplitudes doubleMath [fin 20] [fin 1] (fin 3) (fin 20) (fin 20000) (fin 1)
      = .ok [fin 1, fin 0, fin 0] ∧
    (∃ ranges high, BinsfrequencyRanges doubleMath (fin 3) (fin 20) (fin 20000) = .ok ranges ∧
      ranges[0]? = some (fin (5629499534213121 / 281474976710656), high)) ∧
    (20 : ℚ) < 5629499534213121 / 281474976710656 ∧
    Binsamplitudes doubleMath [fin 1, fin (8796093022207999 / 8796093022208)] [fin 1, fin 2]
      (fin 3) (fin 1) (fin 1000) (fin 1) = .ok [fin 1, fin 0, fin 0] ∧
    (1 : ℚ) ≤ 8796093022207999 / 8796093022208 ∧
    (8796093022207999 / 8796093022208 : ℚ) < 1000 := by
  have h3 : (fin 3 : JSNum ℚ) = fin ((3 : Nat) : ℚ) := by norm_num
  have hnew : newArray (ceil ((fin 3 : JSNum ℚ) / fin 1)) = .ok 3 := by
    rw [h3, ceil_div_one]
    exact newArray_ofNat 3 (by norm_num)
  have hceil : ceil ((fin 3 : JSNum ℚ) / fin 1) = fin 3 := by
    rw [h3, ceil_div_one]
  refine ⟨?_, ⟨_, fin (7036874417766401 / 35184372088832),
    h3 ▸ BinsfrequencyRanges_double_20_20000, ?_⟩, by norm_num, ?_, by norm_num, by norm_num⟩
  · simp only [Binsamplitudes, hnew]
    show Except.ok _ = Except.ok _
    rw [hceil]
    norm_num [binLoop, binStep, addAt, doubleMath, gt, ge]
    rfl
  · rfl
  · simp only [Binsamplitudes, hnew]
    show Except.ok _ = Except.ok _
    rw [hceil]
    norm_num [binLoop, binStep, addAt, doubleMath, gt, ge]
    rfl

/-! ### The max-frequency filter of `audioToWS_Stream` -/

theorem arrayFilter_eq_filter {β : Type} (p : β → Bool) (l : List β) (s : Nat) :
    arrayFilter (fun x _ => p x) l s = l.filter p := by
  induction l generalizing s with
  | nil => rfl
  | cons x xs ih => simp only [arrayFilter, ih, List.filter_cons]

theorem arrayFilter_eq_take {β : Type} (callback : β → Nat → Bool) (k : Nat)
    (h : ∀ x index, callback x index = decide (index < k)) (l : List β) (s : Nat) :
    arrayFilter callback l s = l.take (k - s) := by
  induction l generalizing s with
  | nil => simp [arrayFilter]
  | cons x xs ih =>
    rw [arrayFilter, h, ih]
    by_cases hs : s < k
    · obtain ⟨m, hm⟩ : ∃ m, k - s = m + 1 := ⟨k - s - 1, by omega⟩
      have hm' : k - (s + 1) = m := by omega
      simp [hs, hm, hm']
    · have h0 : k - s = 0 := by omega
      have h1 : k - (s + 1) = 0 := by omega
      simp [hs, h0, h1]

theorem filter_eq_take {β : Type} (p : β → Bool) (l : List β) (k : Nat)
    (h1 : ∀ x ∈ l.take k, p x = true) (h2 : ∀ x ∈ l.drop k, p x = false) :
    l.filter p = l.take k := by
  have hnil : (l.drop k).filter p = [] := by
    rw [List.filter_eq_nil_iff]
    intro a ha
    simp [h2 a ha]
  conv_lhs => rw [← List.take_append_drop k l]
  rw [List.filter_append, List.filter_eq_self.mpr h1, hnil, List.append_nil]

theorem exists_prefix_le (maxFrequency : JSNum α) (fs : List (JSNum α))
    (hinc : fs.Pairwise fun a b => lt a b = true) :
    ∃ k, k ≤ fs.length ∧ (∀ x ∈ fs.take k, le x maxFrequency = true) ∧
      ∀ x ∈ fs.drop k, le x maxFrequency = false := by
  induction fs with
  | nil => exact ⟨0, le_refl _, by simp, by simp⟩
  | cons f rest ih =>
    obtain ⟨hf, hrest⟩ := List.pairwise_cons.mp hinc
    by_cases h : le f maxFrequency = true
    · obtain ⟨k, hk, h1, h2⟩ := ih hrest
      refine ⟨k + 1, by simpa using hk, ?_, ?_⟩
      · intro x hx
        rw [List.take_succ_cons, List.mem_cons] at hx
        rcases hx with rfl | hx
        · exact h
        · exact h1 x hx
      · intro x hx
        rw [List.drop_succ_cons] at hx
        exact h2 x hx
    · refine ⟨0, Nat.zero_le _, by simp, ?_⟩
      intro x hx
      rw [List.drop_zero, List.mem_cons] at hx
      rcases hx with rfl | hx
      · simpa using h
      · cases hle : le x maxFrequency
        · rfl
        · exact absurd (le_trans_eq_true (le_of_lt_eq_true (hf x hx)) hle) h

theorem zip_take_eq {β γ : Type} (l : List β) (r : List γ) (k : Nat) :
    (l.take k).zip (r.take k) = (l.zip r).take k := by
  unfold List.zip
  exact List.take_zipWith.symm

theorem zip_drop_eq {β γ : Type} (l : List β) (r : List γ) (k : Nat) :
    (l.drop k).zip (r.drop k) = (l.zip r).drop k := by
  unfold List.zip
  exact List.drop_zipWith.symm

theorem frequencies_index_le (maxFrequency : JSNum α) (fs : List (JSNum α)) (k : Nat)
    (hk : k ≤ fs.length) (h1 : ∀ x ∈ fs.take k, le x maxFrequency = true) (index : Nat) :
    le ((fs.take k).getD index nan) maxFrequency = decide (index < k) := by
  have hlen : (fs.take k).length = k := by simp [hk]
  by_cases hi : index < k
  · have hi' : index < (fs.take k).length := by rw [hlen]; exact hi
    rw [List.getD_eq_getElem _ _ hi', h1 _ (List.getElem_mem hi')]
    simp [hi]
  · have hi' : (fs.take k).length ≤ index := by rw [hlen]; omega
    rw [List.getD_eq_default _ _ hi']
    simp [hi]

/-- C21: for sequences `fftFreq` and `fftMag` of equal length with `fftFreq` strictly
increasing, the filtered arrays `frequencies` and `amplitudes` of `audioToWS_Stream` are the
same prefix of their inputs, so they have the same length, and their pairs of entries of equal
index are exactly the original points `(fftFreq[i], fftMag[i])` with
`fftFreq[i] <= maxFrequency`, in their order. -/
theorem audioToWS_Stream_filter_aligned (fftFreq fftMag : List (JSNum α))
    (maxFrequency : JSNum α) (hlen : fftFreq.length = fftMag.length)
    (hinc : fftFreq.Pairwise fun a b => lt a b = true) :
    (audioToWS_Stream_amplitudes (audioToWS_Stream_frequencies fftFreq maxFrequency) fftMag
        maxFrequency).length
      = (audioToWS_Stream_frequencies fftFreq maxFrequency).length ∧
    (audioToWS_Stream_frequencies fftFreq maxFrequency).zip
        (audioToWS_Stream_amplitudes (audioToWS_Stream_frequencies fftFreq maxFrequency) fftMag
          maxFrequency)
      = ((fftFreq.zip fftMag).filter fun p => le p.1 maxFrequency) ∧
    ∃ k, audioToWS_Stream_frequencies fftFreq maxFrequency = fftFreq.take k ∧
      audioToWS_Stream_amplitudes (audioToWS_Stream_frequencies fftFreq maxFrequency) fftMag
        maxFrequency = fftMag.take k := by
  obtain ⟨k, hk, h1, h2⟩ := exists_prefix_le maxFrequency fftFreq hinc
  have hfreq : audioToWS_Stream_frequencies fftFreq maxFrequency = fftFreq.take k := by
    rw [audioToWS_Stream_frequencies, arrayFilter_eq_filter]
    exact filter_eq_take _ fftFreq k h1 h2
  have hamp : audioToWS_Stream_amplitudes (audioToWS_Stream_frequencies fftFreq maxFrequency)
      fftMag maxFrequency = fftMag.take k := by
    rw [hfreq, audioToWS_Stream_amplitudes,
      arrayFilter_eq_take _ k (fun _ index => frequencies_index_le maxFrequency fftFreq k hk h1
        index)]
    rfl
  refine ⟨?_, ?_, k, hfreq, hamp⟩
  · rw [hamp, hfreq, List.length_take, List.length_take, hlen]
  · rw [hamp, hfreq, zip_take_eq]
    symm
    apply filter_eq_take
    · intro p hp
      rw [← zip_take_eq] at hp
      exact h1 p.1 (List.of_mem_zip hp).1
    · intro p hp
      rw [← zip_drop_eq] at hp
      exact h2 p.1 (List.of_mem_zip hp).1

/-- C21 (witness): four points with increasing frequencies and `maxFrequency` 20000: the first
three are kept, each frequency with its own amplitude. -/
theorem audioToWS_Stream_filter_aligned_witness :
    ([fin 0, fin 100, fin 20000, fin 30000] : List (JSNum ℚ)).length
      = ([fin 1, fin 2, fin 3, fin 4] : List (JSNum ℚ)).length ∧
    ([fin 0, fin 100, fin 20000, fin 30000] : List (JSNum ℚ)).Pairwise
      (fun a b => lt a b = true) ∧
    audioToWS_Stream_frequencies ([fin 0, fin 100, fin 20000, fin 30000] : List (JSNum ℚ))
      (fin 20000) = [fin 0, fin 100, fin 20000] ∧
    audioToWS_Stream_amplitudes
        (audioToWS_Stream_frequencies ([fin 0, fin 100, fin 20000, fin 30000] : List (JSNum ℚ))
          (fin 20000))
        [fin 1, fin 2, fin 3, fin 4] (fin 20000)
      = [fin 1, fin 2, fin 3] ∧
    (audioToWS_Stream_frequencies ([fin 0, fin 100, fin 20000, fin 30000] : List (JSNum ℚ))
          (fin 20000)).zip
        (audioToWS_Stream_amplitudes
          (audioToWS_Stream_frequencies
            ([fin 0, fin 100, fin 20000, fin 30000] : List (JSNum ℚ)) (fin 20000))
          [fin 1, fin 2, fin 3, fin 4] (fin 20000))
      = ((([fin 0, fin 100, fin 20000, fin 30000] : List (JSNum ℚ)).zip
          ([fin 1, fin 2, fin 3, fin 4] : List (JSNum ℚ))).filter
            fun p => le p.1 (fin 20000)) :=
  have hinc : ([fin 0, fin 100, fin 20000, fin 30000] : List (JSNum ℚ)).Pairwise
      (fun a b => lt a b = true) := by
    norm_num
  have hfreq : audioToWS_Stream_frequencies
      ([fin 0, fin 100, fin 20000, fin 30000] : List (JSNum ℚ)) (fin 20000)
      = [fin 0, fin 100, fin 20000] := by
    norm_num [audioToWS_Stream_frequencies, arrayFilter]
  have hamp : audioToWS_Stream_amplitudes
      (audioToWS_Stream_frequencies ([fin 0, fin 100, fin 20000, fin 30000] : List (JSNum ℚ))
        (fin 20000))
      [fin 1, fin 2, fin 3, fin 4] (fin 20000) = [fin 1, fin 2, fin 3] := by
    rw [hfreq]
    norm_num [audioToWS_Stream_amplitudes, arrayFilter]
  ⟨rfl, hinc, hfreq, hamp,
    (audioToWS_Stream_filter_aligned [fin 0, fin 100, fin 20000, fin 30000]
      [fin 1, fin 2, fin 3, fin 4] (fin 20000) rfl hinc).2.1⟩

/-- Without the order of the frequencies the two filters disagree: the amplitude kept at index 1
belongs to the dropped frequency 30000, and the amplitude of the kept frequency 200 is lost. -/
theorem audioToWS_Stream_filter_unsorted :
    audioToWS_Stream_frequencies [fin 100, fin 30000, fin 200] (fin (20000 : ℚ))
      = [fin 100, fin 200] ∧
    audioToWS_Stream_amplitudes
        (audioToWS_Stream_frequencies [fin 100, fin 30000, fin 200] (fin (20000 : ℚ)))
        [fin 1, fin 2, fin 3] (fin 20000)
      = [fin 1, fin 2] := by
  have hfreq : audioToWS_Stream_frequencies [fin 100, fin 30000, fin 200] (fin (20000 : ℚ))
      = [fin 100, fin 200] := by
    norm_num [audioToWS_Stream_frequencies, arrayFilter]
  refine ⟨hfreq, ?_⟩
  rw [hfreq]
  norm_num [audioToWS_Stream_amplitudes, arrayFilter]

end StreamDeck
